import Mathlib

/-!
Verification development for the factorio_llm bridge: a shallow embedding of
the value decoder (`src/factorio_tools.py`), the command encoder expressions,
the RCON transport state machine (`src/rcon_wrapper.py`), and the tool-calling
conversation loop (`src/factorio_agent.py`), together with theorems checking
the specified properties against these embeddings.

Strings are modelled as `List Char` (Lean `String` is a wrapper around
`List Char`), and the Python `re` patterns used by the decoder are embedded as
executable scanning functions with the exact leftmost-match and greedy
semantics of the patterns in question (each pattern used by the source is
simple enough that greedy matching never backtracks past the first
terminator, which the embeddings mirror directly).
-/

/-- Character class of Python's `\s` (ASCII whitespace, the only whitespace
occurring in RCON replies). -/
def isSpaceChar (c : Char) : Bool :=
  c = ' ' || c = '\t' || c = '\n' || c = '\r' || c = '\x0b' || c = '\x0c'

/-- Character class of the regex `[-\d.]` used for numeric captures. -/
def isNumChar (c : Char) : Bool :=
  c.isDigit || c = '-' || c = '.'

/-- Characters occurring in well-formed entity/item names (letters, digits,
hyphen, underscore); used only in hypotheses of theorems, never by the
decoder itself. -/
def isNameChar (c : Char) : Bool :=
  c.isAlpha || c.isDigit || c = '-' || c = '_'

/-- Boolean test for "not a double quote", the `[^"]` regex class. -/
def notQuote (c : Char) : Bool := decide (c ≠ '"')

/-- Drop a literal prefix, failing when the input does not start with it
(the literal-text part of a regex match attempt). -/
def dropPrefixOpt : List Char → List Char → Option (List Char)
  | [], s => some s
  | _ :: _, [] => none
  | k :: ks, c :: cs => if c = k then dropPrefixOpt ks cs else none

/-- One-pass embedding of `re.findall(r'\x7b[^\x7d]+\x7d', s)` from
`_parse_entity_list` (and the identical scans in `_parse_nearby_entities`,
`_parse_resource_totals`, `_parse_resource_list`, `get_assemblers`). The
state is `none` while scanning for a left brace, and `some acc` once a
candidate match has opened at a left brace, `acc` holding (reversed) the
characters of the greedy `[^\x7d]+` run, which extends exactly to the first
right brace. On that right brace the match succeeds precisely when the run
is nonempty. Matches are non-overlapping, so scanning resumes after the
closing brace; when the empty candidate `\x7b\x7d` fails, the only position
skipped by resuming after the brace is the brace itself, which cannot start
a match — so the resumption points coincide with `re.findall`. -/
def findBlocksAux : Option (List Char) → List Char → List (List Char)
  | _, [] => []
  | none, c :: cs =>
    if c = '\x7b' then findBlocksAux (some []) cs else findBlocksAux none cs
  | some acc, c :: cs =>
    if c = '\x7d' then
      if acc = [] then findBlocksAux none cs
      else ('\x7b' :: acc.reverse ++ ['\x7d']) :: findBlocksAux none cs
    else findBlocksAux (some (c :: acc)) cs

/-- The block list of `re.findall(r'\x7b[^\x7d]+\x7d', s)`. -/
def findBlocks (l : List Char) : List (List Char) := findBlocksAux none l

/-- Match attempt, at the current position, of the pattern
`key\s*=\s*([-\d.]+)` with a single-character key (`x` or `y`), as used by
the per-field searches of `_parse_entity_list`. Returns the captured
numeric token. -/
def matchNumAt (key : Char) (l : List Char) : Option (List Char) :=
  match l with
  | [] => none
  | c :: r1 =>
    if c = key then
      let r := r1.dropWhile isSpaceChar
      if r.head? = some '=' then
        let cap := (r.tail.dropWhile isSpaceChar).takeWhile isNumChar
        if cap = [] then none else some cap
      else none
    else none

/-- Embedding of `re.search` for the numeric-field pattern: try the match at
every position left to right, returning the first capture. -/
def searchNum (key : Char) : List Char → Option (List Char)
  | [] => none
  | c :: cs =>
    match matchNumAt key (c :: cs) with
    | some v => some v
    | none => searchNum key cs

/-- Match attempt, at the current position, of the pattern
`name\s*=\s*"([^"]+)"` (with `key` the literal key text). Returns the
captured string value. -/
def matchStrAt (key : List Char) (l : List Char) : Option (List Char) :=
  match dropPrefixOpt key l with
  | none => none
  | some r1 =>
    match r1.dropWhile isSpaceChar with
    | [] => none
    | d :: r2 =>
      if d = '=' then
        match r2.dropWhile isSpaceChar with
        | [] => none
        | q :: r3 =>
          if q = '"' then
            let cap := r3.takeWhile notQuote
            if cap = [] then none
            else
              match r3.dropWhile notQuote with
              | [] => none
              | _ :: _ => some cap
          else none
      else none

/-- Embedding of `re.search` for the quoted-string-field pattern. -/
def searchStr (key : List Char) : List Char → Option (List Char)
  | [] => none
  | c :: cs =>
    match matchStrAt key (c :: cs) with
    | some v => some v
    | none => searchStr key cs

def nameKey : List Char := ['n', 'a', 'm', 'e']

/-- Entity record extracted by `_parse_entity_list`. The source stores
`float(...)` of the captured coordinate tokens; `Float` is not faithfully
representable in the logic, so the embedding keeps the captured numeral
tokens themselves (float conversion of a captured token is injective on the
canonical numerals the game emits, so extraction correctness is exactly
correctness of the captured tokens). -/
structure EntityInfo where
  name : String
  position_x : String
  position_y : String
deriving DecidableEq, Repr

/-- Per-block field extraction of `_parse_entity_list`: search each field
pattern independently inside the block and keep the block only when all
three fields matched. -/
def extractEntity (block : List Char) : Option EntityInfo :=
  match searchStr nameKey block, searchNum 'x' block, searchNum 'y' block with
  | some n, some x, some y => some ⟨String.mk n, String.mk x, String.mk y⟩
  | _, _, _ => none

/-- Embedding of `FactorioTools._parse_entity_list`: partition the reply into
brace blocks, then extract the three fields from each block. -/
def parseEntityList (s : String) : List EntityInfo :=
  (findBlocks s.data).filterMap extractEntity

/-- Embedding of the decode path of `FactorioTools.list_entities` after the
RCON reply is in hand: a falsy reply (`None` or the empty string) yields the
empty list, otherwise the reply is parsed with `_parse_entity_list`. -/
def listEntitiesDecode (reply : Option String) : List EntityInfo :=
  match reply with
  | none => []
  | some s => if s = "" then [] else parseEntityList s

/-! ## Transport: `RCONWrapper` (src/rcon_wrapper.py) -/

/-- Connection state of `RCONWrapper`: endpoint fields plus the nullable
client handle (`self._client`); a handle is modelled by an opaque numeric
session id. -/
structure RCONWrapper where
  host : String
  port : Nat
  password : String
  client : Option Nat
deriving DecidableEq, Repr

/-- A raised Python exception, as a class name and message. -/
structure PyExc where
  kind : String
  msg : String
deriving DecidableEq, Repr

/-- Embedding of `RCONWrapper.connect`: when a client handle already exists
the method returns immediately; otherwise `RCONClient(...)` is constructed,
whose outcome is the `session` parameter (a fresh handle, or the exception
text). The third component records whether a new session construction was
attempted. -/
def connect (session : Except String Nat) (w : RCONWrapper) :
    Except PyExc Unit × RCONWrapper × Bool :=
  match w.client with
  | some _ => (.ok (), w, false)
  | none =>
    match session with
    | .ok handle => (.ok (), { w with client := some handle }, true)
    | .error e =>
      (.error ⟨"ConnectionError",
        "Failed to connect to " ++ w.host ++ ":" ++ toString w.port ++ ": " ++ e⟩,
       w, true)

/-- Embedding of `RCONWrapper.send_command`: raises when not connected;
otherwise performs exactly one send on the underlying client, whose outcome
is the `outcome` parameter (there is no retry inside the method). On a
channel error the handle is nulled and a `ConnectionError("Connection lost:
...")` is raised; an empty reply becomes `none`. -/
def send_command (command : String) (outcome : Except String String) (w : RCONWrapper) :
    Except PyExc (Option String) × RCONWrapper :=
  match w.client with
  | none => (.error ⟨"ConnectionError", "Not connected to server"⟩, w)
  | some _ =>
    match outcome with
    | .ok r => (.ok (if r = "" then none else some r), w)
    | .error e =>
      (.error ⟨"ConnectionError", "Connection lost: " ++ e⟩,
       { w with client := none })

/-! ## Command encoder expressions (f-string interpolation in
src/factorio_tools.py) -/

/-- Prefix of the expression built by `FactorioTools.count_entities` up to
and including the double quote that opens the interpolated string literal. -/
def cePre : String := "#game.surfaces[1].find_entities_filtered\x7bname=\""

/-- Embedding of the first query expression built by
`FactorioTools.count_entities`: the `entity_type` parameter is interpolated
verbatim into a double-quoted Lua string literal. -/
def countEntitiesLuaName (entityType : String) : String :=
  cePre ++ entityType ++ "\"\x7d"

/-- Prefix of the `can_place_entity` expression of `FactorioTools.place_entity`
up to and including the quote opening the `name` literal. -/
def pePre : String := "game.surfaces[1].can_place_entity\x7bname=\""

/-- Embedding of the `can_place_entity` check expression built by
`FactorioTools.place_entity` (coordinates are taken as their already
formatted numeric text, which contains no quotes). -/
def placeEntityCheckLua (name x y : String) : String :=
  pePre ++ name ++ ("\", position=\x7b" ++ x ++ "," ++ y ++ "\x7d, force=\"player\"\x7d")

/-- Prefix of the crafting expression of `FactorioTools.craft_item` up to and
including the quote opening the `recipe` literal. -/
def ciPre : String := "game.connected_players[1].begin_crafting\x7brecipe=\""

/-- Embedding of the crafting expression built by `FactorioTools.craft_item`
(`count` is taken as its formatted numeric text). -/
def craftItemLua (itemName count : String) : String :=
  ciPre ++ itemName ++ ("\", count=" ++ count ++ "\x7d")

/-- Contents of the first double-quoted string literal of a list of
characters, as a Lua lexer scanning for the next double quote would read it
(the encoder emits no escape sequences, so literal scanning is plain
quote-to-quote). `dropWhile notQuote` can only stop at a double quote, so
the head in each cons case is necessarily the quote character. -/
def firstQuotedList (l : List Char) : Option (List Char) :=
  match l.dropWhile notQuote with
  | [] => none
  | _ :: rest =>
    match rest.dropWhile notQuote with
    | [] => none
    | _ :: _ => some (rest.takeWhile notQuote)

/-- String-level wrapper of `firstQuotedList`. -/
def firstQuotedContent (s : String) : Option String :=
  (firstQuotedList s.data).map String.mk

/-! ## General list lemmas used by the regex-embedding proofs -/

theorem dropWhile_append_of_all {p : Char → Bool} :
    ∀ (a l : List Char), (∀ c ∈ a, p c = true) →
      (a ++ l).dropWhile p = l.dropWhile p := by
  intro a
  induction a with
  | nil => intro l _; rfl
  | cons c cs ih =>
    intro l h
    have hc : p c = true := h c (List.mem_cons_self _ _)
    simp only [List.cons_append, List.dropWhile_cons, hc, if_true]
    exact ih l (fun d hd => h d (List.mem_cons_of_mem _ hd))

theorem dropWhile_cons_of_neg {p : Char → Bool} (c : Char) (l : List Char)
    (h : p c = false) : (c :: l).dropWhile p = c :: l := by
  simp [List.dropWhile_cons, h]

theorem takeWhile_append_of_all {p : Char → Bool} :
    ∀ (a l : List Char), (∀ c ∈ a, p c = true) →
      (a ++ l).takeWhile p = a ++ l.takeWhile p := by
  intro a
  induction a with
  | nil => intro l _; rfl
  | cons c cs ih =>
    intro l h
    have hc : p c = true := h c (List.mem_cons_self _ _)
    simp only [List.cons_append, List.takeWhile_cons, hc, if_true]
    rw [ih l (fun d hd => h d (List.mem_cons_of_mem _ hd))]

theorem takeWhile_cons_of_neg {p : Char → Bool} (c : Char) (l : List Char)
    (h : p c = false) : (c :: l).takeWhile p = [] := by
  simp [List.takeWhile_cons, h]

theorem dropPrefixOpt_self_append :
    ∀ (k l : List Char), dropPrefixOpt k (k ++ l) = some l := by
  intro k
  induction k with
  | nil => intro l; rfl
  | cons c cs ih => intro l; simp [dropPrefixOpt, ih]

/-! ## Claim C8: empty replies decode to the empty entity list -/

/-- Claim C8: a reply representing zero matched entities (a `None` reply, an
empty reply, or the empty-container serialization `"\x7b\x7d"`) decodes to the
empty list through the `list_entities` decode path — a success value of list
type, never an exception and never `None`. -/
theorem list_entities_empty_reply_decodes_empty :
    listEntitiesDecode none = [] ∧ listEntitiesDecode (some "") = [] ∧
      listEntitiesDecode (some "\x7b\x7d") = [] := by
  decide

/-! ## Claim C7: a channel error during send nulls the handle -/

/-- Claim C7: for a connected transport, when the underlying channel errors
during `send_command`, the call fails with the link-lost error
(`ConnectionError("Connection lost: ...")`) and the client handle is nulled
in the resulting state while host, port and password are unchanged. The
underlying client is consulted exactly once per call (the single `outcome`
parameter), so there is no implicit retry inside the transport. -/
theorem send_command_link_lost (w : RCONWrapper) (hdl : Nat) (cmd err : String)
    (h : w.client = some hdl) :
    send_command cmd (.error err) w =
      (.error ⟨"ConnectionError", "Connection lost: " ++ err⟩,
       ⟨w.host, w.port, w.password, none⟩) := by
  unfold send_command
  rw [h]

/-- Witness for C7 at a concrete connected transport and channel error. -/
theorem send_command_link_lost_witness :
    (RCONWrapper.mk "localhost" 27015 "test123" (some 1)).client = some 1 ∧
      send_command "/c rcon.print(game.tick)" (.error "socket closed")
          ⟨"localhost", 27015, "test123", some 1⟩ =
        (.error ⟨"ConnectionError", "Connection lost: socket closed"⟩,
         ⟨"localhost", 27015, "test123", none⟩) :=
  ⟨rfl, send_command_link_lost ⟨"localhost", 27015, "test123", some 1⟩ 1 _ _ rfl⟩

/-! ## Claim C10: connect on an already-connected transport is a no-op -/

/-- Claim C10: when the client handle is already non-null, `connect` returns
without error, does not construct a new session (third component `false`),
and leaves the whole transport state — handle, host, port, password —
unchanged. -/
theorem connect_already_connected (w : RCONWrapper) (hdl : Nat)
    (session : Except String Nat) (h : w.client = some hdl) :
    connect session w = (.ok (), w, false) := by
  unfold connect
  rw [h]

/-- Witness for C10: even with a fresh session available, a connected
transport is left untouched. -/
theorem connect_already_connected_witness :
    (RCONWrapper.mk "localhost" 27015 "test123" (some 7)).client = some 7 ∧
      connect (.ok 99) ⟨"localhost", 27015, "test123", some 7⟩ =
        (.ok (), ⟨"localhost", 27015, "test123", some 7⟩, false) :=
  ⟨rfl, connect_already_connected ⟨"localhost", 27015, "test123", some 7⟩ 7 (.ok 99) rfl⟩

/-! ## Claim C2: interpolated string parameters and the enclosing literal -/

theorem firstQuotedList_split (p v2 : List Char) (t1 : List Char) (rest : List Char)
    (hp : ∀ ch ∈ p, notQuote ch = true) (ht1 : ∀ ch ∈ t1, notQuote ch = true) :
    firstQuotedList (p ++ '"' :: (t1 ++ '"' :: (v2 ++ rest))) = some t1 := by
  unfold firstQuotedList
  rw [dropWhile_append_of_all p _ hp, dropWhile_cons_of_neg _ _ (by decide)]
  dsimp only
  rw [dropWhile_append_of_all t1 _ ht1, dropWhile_cons_of_neg _ _ (by decide)]
  dsimp only
  rw [takeWhile_append_of_all t1 _ ht1, takeWhile_cons_of_neg _ _ (by decide)]
  simp

/-- The first quoted literal of `pre ++ t ++ post`, when `pre` is a prefix
whose only double quote is its final character (the literal opener) and the
parameter `t` itself contains a double quote: the Lua lexer reads only the
part of `t` before its first quote. -/
theorem firstQuoted_builder (pre : String) (preBody : List Char)
    (hpre : pre.data = preBody ++ ['"']) (hbody : ∀ ch ∈ preBody, notQuote ch = true)
    (t post : String) (t1 t2 : List Char)
    (ht : t.data = t1 ++ '"' :: t2) (ht1 : ∀ ch ∈ t1, notQuote ch = true) :
    firstQuotedContent (pre ++ t ++ post) = some (String.mk t1) := by
  unfold firstQuotedContent
  rw [String.data_append, String.data_append, hpre, ht]
  rw [show (preBody ++ ['"']) ++ (t1 ++ '"' :: t2) ++ post.data
        = preBody ++ '"' :: (t1 ++ '"' :: (t2 ++ post.data)) by simp]
  rw [firstQuotedList_split preBody t2 t1 post.data hbody ht1]
  rfl

/-- Counterexample to claim C2: the encoder performs no validation or
escaping, so a parameter value containing a double quote terminates the
enclosing string literal of the generated expression. With the parameter
`tree" ; game.print("pwn`, the expression built by `count_entities` contains
the parameter verbatim, the Lua lexer reads only `tree` as the literal, and
the rest of the parameter becomes script text outside the literal. -/
theorem count_entities_interpolation_injects :
    countEntitiesLuaName "tree\" ; game.print(\"pwn" =
      "#game.surfaces[1].find_entities_filtered\x7bname=\"tree\" ; game.print(\"pwn\"\x7d" ∧
    firstQuotedContent (countEntitiesLuaName "tree\" ; game.print(\"pwn") = some "tree" ∧
    ("tree" : String) ≠ "tree\" ; game.print(\"pwn" := by
  refine ⟨by decide, by decide, by decide⟩

/-- Amended claim C2: every string parameter is interpolated verbatim with no
validation or escaping; consequently, for each of the three encoders, a
parameter containing a double quote terminates the enclosing string literal
early — the literal the Lua lexer reads is the parameter's prefix before its
first quote, and is never the whole parameter. -/
theorem encoder_raw_interpolation (t : String) (t1 t2 : List Char) (x y c : String)
    (ht : t.data = t1 ++ '"' :: t2) (ht1 : ∀ ch ∈ t1, notQuote ch = true) :
    firstQuotedContent (countEntitiesLuaName t) = some (String.mk t1) ∧
    firstQuotedContent (placeEntityCheckLua t x y) = some (String.mk t1) ∧
    firstQuotedContent (craftItemLua t c) = some (String.mk t1) ∧
    String.mk t1 ≠ t := by
  have hne : String.mk t1 ≠ t := by
    intro he
    have hd : t.data = t1 := by rw [← he]
    rw [hd] at ht
    have := congrArg List.length ht
    simp at this
  refine ⟨?_, ?_, ?_, hne⟩
  · exact firstQuoted_builder cePre
      "#game.surfaces[1].find_entities_filtered\x7bname=".data (by decide) (by decide)
      t "\"\x7d" t1 t2 ht ht1
  · exact firstQuoted_builder pePre "game.surfaces[1].can_place_entity\x7bname=".data
      (by decide) (by decide) t _ t1 t2 ht ht1
  · exact firstQuoted_builder ciPre
      "game.connected_players[1].begin_crafting\x7brecipe=".data (by decide) (by decide)
      t _ t1 t2 ht ht1

/-- Witness for the amended C2 at the concrete parameter `iron"chest`. -/
theorem encoder_raw_interpolation_witness :
    ("iron\"chest" : String).data = "iron".data ++ '"' :: "chest".data ∧
    firstQuotedContent (countEntitiesLuaName "iron\"chest") = some "iron" ∧
    firstQuotedContent (placeEntityCheckLua "iron\"chest" "1.0" "2.0") = some "iron" ∧
    firstQuotedContent (craftItemLua "iron\"chest" "1") = some "iron" ∧
    ("iron" : String) ≠ "iron\"chest" := by
  have h := encoder_raw_interpolation "iron\"chest" "iron".data "chest".data
    "1.0" "2.0" "1" (by decide) (by decide)
  exact ⟨by decide, h.1, h.2.1, h.2.2.1, h.2.2.2⟩

/-! ## Python values and the tool dispatcher (src/factorio_agent.py) -/

/-- Python runtime values crossing the dispatcher boundary: JSON-decoded tool
arguments and facade results. Dataclass results are modelled as `vDict` of
their fields (Python formats them through `asdict` into plain dicts). -/
inductive PyVal where
  | vNone
  | vBool (b : Bool)
  | vInt (n : Int)
  | vStr (s : String)
  | vList (xs : List PyVal)
  | vDict (fs : List (String × PyVal))

/-- A facade operation of `FactorioTools` with its resolved argument values,
as invoked by `FactorioAgent._call_tool`. The facade itself (remote I/O) is a
parameter of the dispatcher embedding. -/
inductive FacadeCall where
  | getTick
  | getGameInfo
  | countEntities (entityType : PyVal)
  | getProductionStats (item : PyVal)
  | getPlayerPosition
  | findNearbyEntities (radius : PyVal)
  | findNearbyResources (radius : PyVal)
  | getPlayerInventory
  | getEntityInventory (x y : PyVal)
  | craftItem (itemName count : PyVal)
  | mineResource (count resourceType : PyVal)
  | placeEntity (nm x y : PyVal)
  | removeEntity (x y : PyVal)
  | getAssemblers (lim : PyVal)
  | getPowerStats
  | getResearchStatus

/-- Dictionary lookup, `args.get(k)` without default (absent key is `None` in
the `.getD` uses below). -/
def argLookup (args : List (String × PyVal)) (k : String) : Option PyVal :=
  (args.find? (fun p => p.1 == k)).map (fun p => p.2)

/-- Python `args.get(k, d)`. -/
def argGetD (args : List (String × PyVal)) (k : String) (d : PyVal) : PyVal :=
  (argLookup args k).getD d

/-- Python `args[k]`: raises `KeyError` when the key is absent
(`str(KeyError(k))` is the repr of the key, hence the quotes). -/
def argIndex (args : List (String × PyVal)) (k : String) : Except PyExc PyVal :=
  match argLookup args k with
  | some v => .ok v
  | none => .error ⟨"KeyError", "'" ++ k ++ "'"⟩

/-- Embedding of `FactorioAgent._call_tool`: the if/elif dispatch chain.
Arguments read with `args.get(...)` fall back to the coded defaults;
arguments read with `args[...]` raise `KeyError` when absent (evaluated left
to right); an unknown name raises `ValueError`. -/
def callTool (facade : FacadeCall → Except PyExc PyVal) (name : String)
    (args : List (String × PyVal)) : Except PyExc PyVal :=
  if name = "get_tick" then facade .getTick
  else if name = "get_game_info" then facade .getGameInfo
  else if name = "count_entities" then
    facade (.countEntities (argGetD args "entity_type" (.vStr "tree")))
  else if name = "get_production_stats" then
    facade (.getProductionStats (argGetD args "item" (.vStr "iron-plate")))
  else if name = "get_player_position" then facade .getPlayerPosition
  else if name = "find_nearby_entities" then
    facade (.findNearbyEntities (argGetD args "radius" (.vInt 20)))
  else if name = "find_nearby_resources" then
    facade (.findNearbyResources (argGetD args "radius" (.vInt 50)))
  else if name = "get_player_inventory" then facade .getPlayerInventory
  else if name = "get_entity_inventory" then do
    let x ← argIndex args "x"
    let y ← argIndex args "y"
    facade (.getEntityInventory x y)
  else if name = "craft_item" then do
    let i ← argIndex args "item_name"
    facade (.craftItem i (argGetD args "count" (.vInt 1)))
  else if name = "mine_resource" then
    facade (.mineResource (argGetD args "count" (.vInt 10))
      ((argLookup args "resource_type").getD .vNone))
  else if name = "place_entity" then do
    let nm ← argIndex args "name"
    let x ← argIndex args "x"
    let y ← argIndex args "y"
    facade (.placeEntity nm x y)
  else if name = "remove_entity" then do
    let x ← argIndex args "x"
    let y ← argIndex args "y"
    facade (.removeEntity x y)
  else if name = "get_assemblers" then
    facade (.getAssemblers (argGetD args "limit" (.vInt 20)))
  else if name = "get_power_stats" then facade .getPowerStats
  else if name = "get_research_status" then facade .getResearchStatus
  else .error ⟨"ValueError", "Unknown tool: " ++ name⟩

mutual
/-- Python `json.dumps` on the values reaching `_format_result` (default
separators; string escaping is not modelled — no value in scope contains
characters needing escapes). -/
def jsonDumpsVal : PyVal → String
  | .vNone => "null"
  | .vBool b => if b then "true" else "false"
  | .vInt n => toString n
  | .vStr s => "\"" ++ s ++ "\""
  | .vList xs => "[" ++ jsonDumpsItems xs ++ "]"
  | .vDict fs => "\x7b" ++ jsonDumpsFields fs ++ "\x7d"

def jsonDumpsItems : List PyVal → String
  | [] => ""
  | [x] => jsonDumpsVal x
  | x :: y :: rest => jsonDumpsVal x ++ ", " ++ jsonDumpsItems (y :: rest)

def jsonDumpsFields : List (String × PyVal) → String
  | [] => ""
  | [(k, v)] => "\"" ++ k ++ "\": " ++ jsonDumpsVal v
  | (k, v) :: y :: rest =>
    "\"" ++ k ++ "\": " ++ jsonDumpsVal v ++ ", " ++ jsonDumpsFields (y :: rest)
end

/-- Python `str(...)` on a result item (only scalar items occur in the lists
the facade returns; containers format through `json.dumps` in the branches
that reach them). -/
def pyStr : PyVal → String
  | .vNone => "None"
  | .vBool b => if b then "True" else "False"
  | .vInt n => toString n
  | .vStr s => s
  | .vList xs => jsonDumpsVal (.vList xs)
  | .vDict fs => jsonDumpsVal (.vDict fs)

/-- Embedding of `FactorioAgent._format_result`. -/
def formatResult : PyVal → String
  | .vNone => "No result"
  | .vBool b => if b then "Success" else "Failed"
  | .vInt n => toString n
  | .vStr s => s
  | .vList [] => "Empty list"
  | .vList xs =>
    "[" ++ String.intercalate ", "
      (xs.map (fun item =>
        match item with
        | .vDict fs => jsonDumpsVal (.vDict fs)
        | other => pyStr other)) ++ "]"
  | .vDict fs => jsonDumpsVal (.vDict fs)

/-- Embedding of `FactorioAgent._execute_tool`: run the dispatch chain and
format the result; any exception is caught and converted to the string
`Error: <kind>: <message>` (the `except Exception` catch-all). -/
def executeTool (facade : FacadeCall → Except PyExc PyVal) (name : String)
    (args : List (String × PyVal)) : String :=
  match callTool facade name args with
  | .ok r => formatResult r
  | .error e => "Error: " ++ e.kind ++ ": " ++ e.msg

/-- Boolean test that a dispatcher result string begins with `Error:`. -/
def beginsWithErrorTag (s : String) : Bool := s.data.take 6 == "Error:".data

/-- The `required` argument lists declared for each tool in the static
catalog `FACTORIO_TOOLS` of src/tool_definitions.py (tools not listed
declare no required arguments). -/
def requiredArgs (name : String) : List String :=
  if name = "count_entities" then ["entity_type"]
  else if name = "get_production_stats" then ["item"]
  else if name = "get_entity_inventory" then ["x", "y"]
  else if name = "craft_item" then ["item_name"]
  else if name = "place_entity" then ["name", "x", "y"]
  else if name = "remove_entity" then ["x", "y"]
  else []

/-! ## Fallback text tool-call recovery (`_parse_text_tool_call`) -/

/-- Python `int(...)` on a captured digit string. -/
def natOfDigits (l : List Char) : Nat :=
  l.foldl (fun n c => 10 * n + (c.toNat - 48)) 0

/-- JSON insignificant whitespace. -/
def isJsonWs (c : Char) : Bool := c = ' ' || c = '\t' || c = '\n' || c = '\r'

/-- Body of a JSON string after its opening quote, up to the closing quote.
Escape sequences are outside the modelled fragment and fail the parse (the
argument bodies matched by the text-call pattern contain none). -/
def jsonStringBody : List Char → Option (List Char × List Char)
  | [] => none
  | c :: cs =>
    if c = '"' then some ([], cs)
    else if c = '\\' then none
    else (jsonStringBody cs).map (fun p => (c :: p.1, p.2))

/-- A JSON integer token (optional minus, then digits). -/
def jsonIntTok (l : List Char) : Option (Int × List Char) :=
  match l with
  | '-' :: rest =>
    let ds := rest.takeWhile Char.isDigit
    if ds = [] then none
    else some (-(Int.ofNat (natOfDigits ds)), rest.drop ds.length)
  | _ =>
    let ds := l.takeWhile Char.isDigit
    if ds = [] then none else some (Int.ofNat (natOfDigits ds), l.drop ds.length)

/-- A JSON scalar value (string, integer, boolean or null), as `json.loads`
reads the flat argument objects recovered by the text-call pattern; nested
containers cannot occur because the pattern's body `[^\x7d]*` contains no
right brace, and fractional numbers are outside the modelled fragment. -/
def jsonValue (l : List Char) : Option (PyVal × List Char) :=
  match l with
  | '"' :: cs => (jsonStringBody cs).map (fun p => (.vStr (String.mk p.1), p.2))
  | _ =>
    match dropPrefixOpt "true".data l with
    | some r => some (.vBool true, r)
    | none =>
      match dropPrefixOpt "false".data l with
      | some r => some (.vBool false, r)
      | none =>
        match dropPrefixOpt "null".data l with
        | some r => some (.vNone, r)
        | none => (jsonIntTok l).map (fun p => (.vInt p.1, p.2))

/-- The members of a JSON object after its opening brace: `"key": value`
pairs separated by commas, ending at the closing brace. Fuelled by the input
length (each member consumes at least one character). -/
def jsonMembers : Nat → List Char → Option (List (String × PyVal) × List Char)
  | 0, _ => none
  | fuel + 1, l =>
    match l.dropWhile isJsonWs with
    | '"' :: cs =>
      match jsonStringBody cs with
      | none => none
      | some (key, r1) =>
        match r1.dropWhile isJsonWs with
        | ':' :: r2 =>
          match jsonValue (r2.dropWhile isJsonWs) with
          | none => none
          | some (v, r3) =>
            match r3.dropWhile isJsonWs with
            | ',' :: r4 =>
              (jsonMembers fuel r4).map (fun p => ((String.mk key, v) :: p.1, p.2))
            | '\x7d' :: r4 => some ([(String.mk key, v)], r4)
            | _ => none
        | _ => none
    | _ => none

/-- Python `json.loads` on the brace-delimited argument body, restricted to
flat objects of scalar values (see `jsonValue`); the whole input must be
consumed, as `json.loads` demands. -/
def jsonLoadsObj (l : List Char) : Option (List (String × PyVal)) :=
  match l.dropWhile isJsonWs with
  | '\x7b' :: r =>
    match r.dropWhile isJsonWs with
    | '\x7d' :: r2 => if r2.dropWhile isJsonWs = [] then some [] else none
    | _ =>
      match jsonMembers (r.length + 1) r with
      | some (obj, rest) => if rest.dropWhile isJsonWs = [] then some obj else none
      | none => none
  | _ => none

/-- Python `\w` (word character; ASCII suffices for the tool names in play). -/
def isWordChar (c : Char) : Bool := c.isAlphanum || c = '_'

/-- Match attempt of the pattern `(\w+)\[ARGS\](\x7b[^\x7d]*\x7d)` at the
current position. The greedy `\w+` takes the maximal word run; since `[` is
not a word character, only the maximal run can be followed by the literal
`[ARGS]`, so no backtracking over the run length is possible. Returns the
function-name capture and the brace-delimited argument body. -/
def matchTextCallAt (l : List Char) : Option (List Char × List Char) :=
  let w := l.takeWhile isWordChar
  if w = [] then none
  else
    match dropPrefixOpt "[ARGS]".data (l.drop w.length) with
    | none => none
    | some r =>
      match r with
      | '\x7b' :: r2 =>
        let body := r2.takeWhile (fun c => decide (c ≠ '\x7d'))
        match r2.drop body.length with
        | '\x7d' :: _ => some (w, '\x7b' :: body ++ ['\x7d'])
        | _ => none
      | _ => none

/-- Embedding of `re.search` for the text-call pattern: leftmost match. -/
def searchTextCall : List Char → Option (List Char × List Char)
  | [] => none
  | c :: cs =>
    match matchTextCallAt (c :: cs) with
    | some v => some v
    | none => searchTextCall cs

/-- A tool call: name plus JSON-decoded argument mapping (the
`\x7b"function": \x7b"name": ..., "arguments": ...\x7d\x7d` shape of the
source is flattened into its two payload fields). -/
structure ToolCall where
  name : String
  args : List (String × PyVal)

/-- Embedding of `FactorioAgent._parse_text_tool_call`: search the content
for the pattern `name[ARGS]\x7b...json...\x7d`; when found and the body
parses as a JSON object, produce the synthesized tool call, otherwise
`None` (a `json.JSONDecodeError` is swallowed). -/
def parseTextToolCall (content : String) : Option ToolCall :=
  match searchTextCall content.data with
  | none => none
  | some (fn, argsStr) =>
    match jsonLoadsObj argsStr with
    | some obj => some ⟨String.mk fn, obj⟩
    | none => none

/-! ## Conversation loop (`FactorioAgent.chat`, `_trim_history`) -/

/-- A conversation message: role, content, and the structured tool calls the
message carries (empty for user/tool/system messages). -/
structure ChatMsg where
  role : String
  content : String
  toolCalls : List ToolCall

/-- A chat-API response message: content plus structured tool calls (the
`message` dict of the Ollama response; its role is always `assistant`). -/
structure LlmResponse where
  content : String
  toolCalls : List ToolCall

/-- The agent configuration fields used by the loop. -/
structure AgentConfig where
  maxToolIterations : Nat
  maxHistoryMessages : Nat

/-- Python `not content or not content.strip()`. -/
def isBlankStr (s : String) : Bool := s.data.all isSpaceChar

/-- The fixed apology substituted for empty model output. -/
def emptyApologyMsg : String :=
  "I didn't generate a response. Could you rephrase your question?"

/-- The fixed budget-exhaustion fallback message. -/
def maxIterFallbackMsg : String :=
  "I've made several tool calls but couldn't complete the task. Please try a simpler request."

/-- Per-turn fallback recovery of `chat` (the unconditional scan): when the
content parses as a text tool call, the assistant message is rebuilt with
the synthesized call appended after the structured calls and with cleared
content; otherwise the response message is kept as is. -/
def resolveTurn (resp : LlmResponse) : ChatMsg :=
  match parseTextToolCall resp.content with
  | some tc => ⟨"assistant", "", resp.toolCalls ++ [tc]⟩
  | none => ⟨"assistant", resp.content, resp.toolCalls⟩

/-- Python `messages[-(n):]` (note `lst[-0:]` is the whole list). -/
def pySliceLast (l : List ChatMsg) (n : Nat) : List ChatMsg :=
  if n = 0 then l else l.drop (l.length - n)

/-- Embedding of `FactorioAgent._trim_history`: when the message count
excluding the first entry exceeds the cap, keep `messages[0]` plus
`messages[-(max_msgs):]`. -/
def trimHistory (cfg : AgentConfig) (msgs : List ChatMsg) : List ChatMsg :=
  if msgs.length - 1 ≤ cfg.maxHistoryMessages then msgs
  else
    match msgs with
    | [] => []
    | m0 :: _ => m0 :: pySliceLast msgs cfg.maxHistoryMessages

/-- The iteration body of `FactorioAgent.chat`, fuelled by the remaining
`range(max_tool_iterations)` budget. Returns the final content, the final
stored history, and the number of chat-API calls made. The model is a
function of the history (the tool catalog and options are fixed), the
facade is threaded into `executeTool`. Exhausted fuel appends the fixed
fallback message; a turn without tool calls (after fallback recovery)
terminates with the content, substituting the fixed apology when the
content is blank; otherwise the assistant message and one `tool` message
per call, in call order, are appended and the loop continues. Both exits
trim the history once. -/
def chatLoop (cfg : AgentConfig) (llm : List ChatMsg → LlmResponse)
    (facade : FacadeCall → Except PyExc PyVal) :
    List ChatMsg → Nat → String × List ChatMsg × Nat
  | msgs, 0 =>
    (maxIterFallbackMsg,
     trimHistory cfg (msgs ++ [⟨"assistant", maxIterFallbackMsg, []⟩]), 0)
  | msgs, n + 1 =>
    let resp := llm msgs
    let merged := resolveTurn resp
    match merged.toolCalls with
    | [] =>
      let content := if isBlankStr merged.content then emptyApologyMsg else merged.content
      (content, trimHistory cfg (msgs ++ [⟨"assistant", content, []⟩]), 1)
    | _ :: _ =>
      let toolMsgs := merged.toolCalls.map
        (fun tc => (⟨"tool", executeTool facade tc.name tc.args, []⟩ : ChatMsg))
      let out := chatLoop cfg llm facade (msgs ++ merged :: toolMsgs) n
      (out.1, out.2.1, out.2.2 + 1)

/-- Embedding of `FactorioAgent.chat`: prefix the user message with the
injected game-state snapshot (obtained outside the model; its text is the
`gameState` parameter), append the user message, and run the bounded loop. -/
def chat (cfg : AgentConfig) (llm : List ChatMsg → LlmResponse)
    (facade : FacadeCall → Except PyExc PyVal) (gameState : String)
    (st : List ChatMsg) (userMessage : String) : String × List ChatMsg × Nat :=
  chatLoop cfg llm facade
    (st ++ [⟨"user", gameState ++ "\n" ++ userMessage, []⟩]) cfg.maxToolIterations

/-! ## Claim C9: unconditional fallback text-call recovery -/

/-- Claim C9: on every assistant turn the content is scanned for the textual
pattern `name[ARGS]\x7b...json...\x7d` regardless of structured calls; when
it parses, exactly one synthesized call is appended after the structured
calls and the free-text content is cleared; in particular the content
`mine_resource[ARGS]\x7b"count": 5\x7d` with no structured calls yields
exactly one call named `mine_resource` with argument `count = 5`. -/
theorem fallback_text_call_merge (resp : LlmResponse) (tc : ToolCall)
    (h : parseTextToolCall resp.content = some tc) :
    (resolveTurn resp).toolCalls = resp.toolCalls ++ [tc] ∧
    (resolveTurn resp).content = "" ∧
    parseTextToolCall "mine_resource[ARGS]\x7b\"count\": 5\x7d" =
      some ⟨"mine_resource", [("count", PyVal.vInt 5)]⟩ ∧
    resolveTurn ⟨"mine_resource[ARGS]\x7b\"count\": 5\x7d", []⟩ =
      ⟨"assistant", "", [⟨"mine_resource", [("count", PyVal.vInt 5)]⟩]⟩ := by
  refine ⟨?_, ?_, rfl, rfl⟩
  · unfold resolveTurn
    rw [h]
  · unfold resolveTurn
    rw [h]

/-- Witness for C9 at the concrete content of the claim. -/
theorem fallback_text_call_merge_witness :
    parseTextToolCall "mine_resource[ARGS]\x7b\"count\": 5\x7d" =
      some ⟨"mine_resource", [("count", PyVal.vInt 5)]⟩ ∧
    (resolveTurn ⟨"mine_resource[ARGS]\x7b\"count\": 5\x7d", []⟩).toolCalls =
      [] ++ [(⟨"mine_resource", [("count", PyVal.vInt 5)]⟩ : ToolCall)] ∧
    (resolveTurn ⟨"mine_resource[ARGS]\x7b\"count\": 5\x7d", []⟩).content = "" :=
  ⟨rfl,
   (fallback_text_call_merge ⟨"mine_resource[ARGS]\x7b\"count\": 5\x7d", []⟩
     ⟨"mine_resource", [("count", PyVal.vInt 5)]⟩ rfl).1,
   (fallback_text_call_merge ⟨"mine_resource[ARGS]\x7b\"count\": 5\x7d", []⟩
     ⟨"mine_resource", [("count", PyVal.vInt 5)]⟩ rfl).2.1⟩

/-! ## Claim C4: dispatcher error conversion and required arguments -/

/-- A facade whose operations all succeed (returning a count of 5), as a
normally functioning remote would for `count_entities` of trees. -/
def alwaysCount5 : FacadeCall → Except PyExc PyVal := fun _ => .ok (.vInt 5)

/-- Counterexample to claim C4 as stated: `count_entities` declares
`entity_type` required in the tool catalog, yet `_call_tool` reads it with
`args.get("entity_type", "tree")`, so a call with the required argument
missing silently counts the default `tree` and returns the count — a result
string not beginning with `Error:`. -/
theorem missing_required_arg_not_error :
    requiredArgs "count_entities" = ["entity_type"] ∧
    argLookup [] "entity_type" = none ∧
    callTool alwaysCount5 "count_entities" [] =
      alwaysCount5 (.countEntities (.vStr "tree")) ∧
    executeTool alwaysCount5 "count_entities" [] = "5" ∧
    beginsWithErrorTag "5" = false :=
  ⟨rfl, rfl, rfl, rfl, rfl⟩

/-- Amended claim C4: any exception raised while executing a known operation
is converted to the result string `Error: <kind>: <message>` and never
propagated (the dispatcher embedding is total); tools whose required
arguments are read by direct indexing — `place_entity`, `craft_item`,
`remove_entity`, `get_entity_inventory` — produce an `Error: KeyError: ...`
string when such an argument is missing; but `count_entities` and
`get_production_stats` silently substitute the defaults `tree` and
`iron-plate` for their catalog-required arguments instead of erroring. -/
theorem dispatcher_total_catch (facade : FacadeCall → Except PyExc PyVal)
    (name : String) (args : List (String × PyVal)) (e : PyExc) :
    (callTool facade name args = .error e →
      executeTool facade name args = "Error: " ++ e.kind ++ ": " ++ e.msg) ∧
    (argLookup args "name" = none →
      executeTool facade "place_entity" args = "Error: KeyError: 'name'") ∧
    (argLookup args "item_name" = none →
      executeTool facade "craft_item" args = "Error: KeyError: 'item_name'") ∧
    (argLookup args "x" = none →
      executeTool facade "remove_entity" args = "Error: KeyError: 'x'") ∧
    (argLookup args "x" = none →
      executeTool facade "get_entity_inventory" args = "Error: KeyError: 'x'") := by
  refine ⟨?_, ?_, ?_, ?_, ?_⟩
  · intro h
    unfold executeTool
    rw [h]
  · intro h
    have hcall : callTool facade "place_entity" args = .error ⟨"KeyError", "'name'"⟩ := by
      simp [callTool, argIndex, h, Bind.bind, Except.bind]
    unfold executeTool
    rw [hcall]
    rfl
  · intro h
    have hcall : callTool facade "craft_item" args = .error ⟨"KeyError", "'item_name'"⟩ := by
      simp [callTool, argIndex, h, Bind.bind, Except.bind]
    unfold executeTool
    rw [hcall]
    rfl
  · intro h
    have hcall : callTool facade "remove_entity" args = .error ⟨"KeyError", "'x'"⟩ := by
      simp [callTool, argIndex, h, Bind.bind, Except.bind]
    unfold executeTool
    rw [hcall]
    rfl
  · intro h
    have hcall : callTool facade "get_entity_inventory" args =
        .error ⟨"KeyError", "'x'"⟩ := by
      simp [callTool, argIndex, h, Bind.bind, Except.bind]
    unfold executeTool
    rw [hcall]
    rfl

/-- Witness for the amended C4: a concrete unknown tool name and a concrete
missing required argument, both converted to `Error:` strings. -/
theorem dispatcher_total_catch_witness :
    callTool alwaysCount5 "no_such_tool" [] =
      .error ⟨"ValueError", "Unknown tool: no_such_tool"⟩ ∧
    executeTool alwaysCount5 "no_such_tool" [] =
      "Error: ValueError: Unknown tool: no_such_tool" ∧
    argLookup [] "name" = none ∧
    executeTool alwaysCount5 "place_entity" [] = "Error: KeyError: 'name'" :=
  ⟨rfl,
   (dispatcher_total_catch alwaysCount5 "no_such_tool" []
     ⟨"ValueError", "Unknown tool: no_such_tool"⟩).1 rfl,
   rfl,
   (dispatcher_total_catch alwaysCount5 "place_entity" []
     ⟨"ValueError", "unused"⟩).2.1 rfl⟩

/-! ## Claim C5: budget exhaustion terminal state -/

theorem resolveTurn_toolCalls_ne (resp : LlmResponse) (h : resp.toolCalls ≠ []) :
    (resolveTurn resp).toolCalls ≠ [] := by
  unfold resolveTurn
  cases parseTextToolCall resp.content with
  | none => exact h
  | some tc => simp

/-- Claim C5: for a model that returns at least one structured tool call on
every turn, `chat` makes exactly `max_tool_iterations` chat-API calls,
terminates, and returns the fixed budget-exhaustion fallback message (the
whole embedding is a total function, so no exception can escape). -/
theorem chat_budget_exhaustion (cfg : AgentConfig) (llm : List ChatMsg → LlmResponse)
    (facade : FacadeCall → Except PyExc PyVal) (gameState : String)
    (st : List ChatMsg) (userMessage : String)
    (h : ∀ ms, (llm ms).toolCalls ≠ []) :
    (chat cfg llm facade gameState st userMessage).1 = maxIterFallbackMsg ∧
    (chat cfg llm facade gameState st userMessage).2.2 = cfg.maxToolIterations := by
  have main : ∀ n msgs, (chatLoop cfg llm facade msgs n).1 = maxIterFallbackMsg ∧
      (chatLoop cfg llm facade msgs n).2.2 = n := by
    intro n
    induction n with
    | zero => intro msgs; exact ⟨rfl, rfl⟩
    | succ n ih =>
      intro msgs
      have hm : (resolveTurn (llm msgs)).toolCalls ≠ [] :=
        resolveTurn_toolCalls_ne (llm msgs) (h msgs)
      unfold chatLoop
      cases hc : (resolveTurn (llm msgs)).toolCalls with
      | nil => exact absurd hc hm
      | cons a as =>
        simp only [hc]
        refine ⟨(ih _).1, ?_⟩
        rw [(ih _).2]
  exact ⟨(main _ _).1, (main _ _).2⟩

/-- A model stub that always issues one structured `get_tick` call. -/
def wLlm : List ChatMsg → LlmResponse := fun _ => ⟨"", [⟨"get_tick", []⟩]⟩

/-- A facade stub whose operations all succeed with `None`. -/
def cxFacade : FacadeCall → Except PyExc PyVal := fun _ => .ok PyVal.vNone

/-- Witness for C5 with a budget of 2. -/
theorem chat_budget_exhaustion_witness :
    (∀ ms, (wLlm ms).toolCalls ≠ []) ∧
    (chat ⟨2, 5⟩ wLlm cxFacade "g" [⟨"system", "sys", []⟩] "u").1 = maxIterFallbackMsg ∧
    (chat ⟨2, 5⟩ wLlm cxFacade "g" [⟨"system", "sys", []⟩] "u").2.2 = 2 :=
  ⟨fun ms => by simp [wLlm],
   (chat_budget_exhaustion ⟨2, 5⟩ wLlm cxFacade "g" [⟨"system", "sys", []⟩] "u"
     (fun ms => by simp [wLlm])).1,
   (chat_budget_exhaustion ⟨2, 5⟩ wLlm cxFacade "g" [⟨"system", "sys", []⟩] "u"
     (fun ms => by simp [wLlm])).2⟩

/-! ## Claim C6: history bound and system-message invariant -/

/-- Well-formed history: the first entry is the fixed system message and no
later entry carries the system role. -/
def HistWf (sysM : ChatMsg) (l : List ChatMsg) : Prop :=
  ∃ t, l = sysM :: t ∧ ∀ m ∈ t, m.role ≠ "system"

theorem histWf_append (sysM : ChatMsg) (l ms : List ChatMsg) (h : HistWf sysM l)
    (hms : ∀ m ∈ ms, m.role ≠ "system") : HistWf sysM (l ++ ms) := by
  obtain ⟨t, rfl, ht⟩ := h
  refine ⟨t ++ ms, rfl, ?_⟩
  intro m hm
  rcases List.mem_append.mp hm with hm | hm
  · exact ht m hm
  · exact hms m hm

theorem trimHistory_wf (cfg : AgentConfig) (sysM : ChatMsg) (l : List ChatMsg)
    (hcap : 1 ≤ cfg.maxHistoryMessages) (h : HistWf sysM l) :
    HistWf sysM (trimHistory cfg l) ∧
      (trimHistory cfg l).length ≤ 1 + cfg.maxHistoryMessages := by
  obtain ⟨t, rfl, ht⟩ := h
  unfold trimHistory
  by_cases hlen : (sysM :: t).length - 1 ≤ cfg.maxHistoryMessages
  · rw [if_pos hlen]
    refine ⟨⟨t, rfl, ht⟩, ?_⟩
    simp only [List.length_cons] at hlen ⊢
    omega
  · rw [if_neg hlen]
    simp only [List.length_cons] at hlen
    unfold pySliceLast
    have hne : ¬ cfg.maxHistoryMessages = 0 := by omega
    rw [if_neg hne]
    have hk : ∃ j, (sysM :: t).length - cfg.maxHistoryMessages = j + 1 := by
      refine ⟨(sysM :: t).length - cfg.maxHistoryMessages - 1, ?_⟩
      simp only [List.length_cons]
      omega
    obtain ⟨j, hj⟩ := hk
    constructor
    · refine ⟨_, rfl, ?_⟩
      intro m hm
      rw [hj, List.drop_succ_cons] at hm
      exact ht m (List.drop_subset j t hm)
    · simp only [List.length_cons, List.length_drop]
      omega

theorem resolveTurn_role (resp : LlmResponse) : (resolveTurn resp).role = "assistant" := by
  unfold resolveTurn
  cases parseTextToolCall resp.content with
  | none => rfl
  | some tc => rfl

theorem chatLoop_hist (cfg : AgentConfig) (llm : List ChatMsg → LlmResponse)
    (facade : FacadeCall → Except PyExc PyVal) (sysM : ChatMsg)
    (hcap : 1 ≤ cfg.maxHistoryMessages) :
    ∀ n msgs, HistWf sysM msgs →
      HistWf sysM (chatLoop cfg llm facade msgs n).2.1 ∧
        (chatLoop cfg llm facade msgs n).2.1.length ≤ 1 + cfg.maxHistoryMessages := by
  intro n
  induction n with
  | zero =>
    intro msgs hw
    exact trimHistory_wf cfg sysM _ hcap
      (histWf_append sysM msgs _ hw
        (by intro m hm; simp at hm; rw [hm]
            exact (by decide : ("assistant" : String) ≠ "system")))
  | succ n ih =>
    intro msgs hw
    unfold chatLoop
    cases hc : (resolveTurn (llm msgs)).toolCalls with
    | nil =>
      simp only [hc]
      exact trimHistory_wf cfg sysM _ hcap
        (histWf_append sysM msgs _ hw
        (by intro m hm; simp at hm; rw [hm]
            exact (by decide : ("assistant" : String) ≠ "system")))
    | cons a as =>
      simp only [hc]
      apply ih
      apply histWf_append sysM msgs _ hw
      intro m hm
      rcases List.mem_cons.mp hm with hm | hm
      · rw [hm, resolveTurn_role]
        exact (by decide : ("assistant" : String) ≠ "system")
      · rcases List.mem_map.mp hm with ⟨tc, _, htc⟩
        rw [← htc]
        exact (by decide : ("tool" : String) ≠ "system")

/-- Amended claim C6: provided `max_history_messages ≥ 1`, after every
completed exchange the stored history has length at most
`1 + max_history_messages`, its first element is still the original system
message, and no other entry has the system role (the system message is
neither evicted nor duplicated). For `max_history_messages = 0` the claim
fails on the code because Python `messages[-0:]` is the whole list (see the
counterexample theorem). -/
theorem chat_history_bound (cfg : AgentConfig) (llm : List ChatMsg → LlmResponse)
    (facade : FacadeCall → Except PyExc PyVal) (gameState : String)
    (st : List ChatMsg) (userMessage : String) (sysM : ChatMsg)
    (hcap : 1 ≤ cfg.maxHistoryMessages) (hst : HistWf sysM st)
    (hrole : sysM.role = "system") :
    HistWf sysM (chat cfg llm facade gameState st userMessage).2.1 ∧
      (chat cfg llm facade gameState st userMessage).2.1.length ≤
        1 + cfg.maxHistoryMessages := by
  unfold chat
  exact chatLoop_hist cfg llm facade sysM hcap _ _
    (histWf_append sysM st _ hst
      (by intro m hm; simp at hm; rw [hm]
          exact (by decide : ("user" : String) ≠ "system")))

/-- A model stub that immediately answers with plain content. -/
def cxLlm : List ChatMsg → LlmResponse := fun _ => ⟨"hi", []⟩

/-- Counterexample to claim C6 as stated: with `max_history_messages = 0`,
one completed exchange leaves a history of length 4 (exceeding
`1 + max_history_messages = 1`) in which the system message occurs twice —
`messages[-0:]` in `_trim_history` is the whole list, so trimming prepends a
second copy of the system message instead of bounding the history. -/
theorem history_cap_zero_violation :
    (chat ⟨1, 0⟩ cxLlm cxFacade "g" [⟨"system", "sys", []⟩] "u").2.1.length = 4 ∧
    ¬ ((chat ⟨1, 0⟩ cxLlm cxFacade "g" [⟨"system", "sys", []⟩] "u").2.1.length ≤
        1 + (AgentConfig.mk 1 0).maxHistoryMessages) ∧
    ((chat ⟨1, 0⟩ cxLlm cxFacade "g" [⟨"system", "sys", []⟩] "u").2.1.countP
      (fun m => m.role == "system")) = 2 := by
  refine ⟨rfl, by decide, rfl⟩

/-- Witness for the amended C6 with cap 1. -/
theorem chat_history_bound_witness :
    1 ≤ (AgentConfig.mk 1 1).maxHistoryMessages ∧
    HistWf ⟨"system", "sys", []⟩ [⟨"system", "sys", []⟩] ∧
    (HistWf ⟨"system", "sys", []⟩
        (chat ⟨1, 1⟩ cxLlm cxFacade "g" [⟨"system", "sys", []⟩] "u").2.1 ∧
      (chat ⟨1, 1⟩ cxLlm cxFacade "g" [⟨"system", "sys", []⟩] "u").2.1.length ≤
        1 + (AgentConfig.mk 1 1).maxHistoryMessages) :=
  ⟨by decide, ⟨[], rfl, by simp⟩,
   chat_history_bound ⟨1, 1⟩ cxLlm cxFacade "g" [⟨"system", "sys", []⟩] "u"
     ⟨"system", "sys", []⟩ (by decide) ⟨[], rfl, by simp⟩ rfl⟩

/-! ## Character-class facts for the decoder proofs -/

theorem spaceChar_cases (c : Char) (h : isSpaceChar c = true) :
    c = ' ' ∨ c = '\t' ∨ c = '\n' ∨ c = '\r' ∨ c = '\x0b' ∨ c = '\x0c' := by
  simp only [isSpaceChar, Bool.or_eq_true, decide_eq_true_eq] at h
  tauto

theorem spaceChar_ne (c k : Char) (h : isSpaceChar c = true)
    (hk : isSpaceChar k = false) : c ≠ k := by
  intro he
  rw [he] at h
  rw [h] at hk
  exact absurd hk (by simp)

theorem nameChar_ne (c k : Char) (h : isNameChar c = true)
    (hk : isNameChar k = false) : c ≠ k := by
  intro he
  rw [he] at h
  rw [h] at hk
  exact absurd hk (by simp)

theorem numChar_ne (c k : Char) (h : isNumChar c = true)
    (hk : isNumChar k = false) : c ≠ k := by
  intro he
  rw [he] at h
  rw [h] at hk
  exact absurd hk (by simp)

theorem digitChar_ne (c k : Char) (h : c.isDigit = true)
    (hk : k.isDigit = false) : c ≠ k := by
  intro he
  rw [he] at h
  rw [h] at hk
  exact absurd hk (by simp)

theorem nameChar_not_space (c : Char) (h : isNameChar c = true) :
    isSpaceChar c = false := by
  cases hsp : isSpaceChar c with
  | false => rfl
  | true =>
    rcases spaceChar_cases c hsp with rfl | rfl | rfl | rfl | rfl | rfl <;>
      exact absurd h (by decide)

theorem nameChar_notQuote (c : Char) (h : isNameChar c = true) : notQuote c = true :=
  decide_eq_true (nameChar_ne c '"' h (by decide))

/-! ## Search skip and step lemmas -/

theorem matchNumAt_cons_ne (key c : Char) (cs : List Char) (h : c ≠ key) :
    matchNumAt key (c :: cs) = none := by
  simp only [matchNumAt, if_neg h]

theorem searchNum_cons_ne (key c : Char) (cs : List Char) (h : c ≠ key) :
    searchNum key (c :: cs) = searchNum key cs := by
  simp only [searchNum, matchNumAt_cons_ne key c cs h]

theorem searchNum_append_ne (key : Char) (j l : List Char) (h : ∀ c ∈ j, c ≠ key) :
    searchNum key (j ++ l) = searchNum key l := by
  induction j with
  | nil => rfl
  | cons c cs ih =>
    rw [List.cons_append, searchNum_cons_ne key c _ (h c (List.mem_cons_self _ _))]
    exact ih (fun d hd => h d (List.mem_cons_of_mem _ hd))

theorem matchStrAt_cons_ne_n (c : Char) (cs : List Char) (h : c ≠ 'n') :
    matchStrAt nameKey (c :: cs) = none := by
  have hd : dropPrefixOpt nameKey (c :: cs) = none := by
    simp only [nameKey, dropPrefixOpt, if_neg h]
  simp only [matchStrAt, hd]

theorem searchStr_cons_ne (c : Char) (cs : List Char) (h : c ≠ 'n') :
    searchStr nameKey (c :: cs) = searchStr nameKey cs := by
  simp only [searchStr, matchStrAt_cons_ne_n c cs h]

theorem searchStr_append_ne (j l : List Char) (h : ∀ c ∈ j, c ≠ 'n') :
    searchStr nameKey (j ++ l) = searchStr nameKey l := by
  induction j with
  | nil => rfl
  | cons c cs ih =>
    rw [List.cons_append, searchStr_cons_ne c _ (h c (List.mem_cons_self _ _))]
    exact ih (fun d hd => h d (List.mem_cons_of_mem _ hd))

theorem searchNum_eq_of_match (key : Char) (l v : List Char) (hne : l ≠ [])
    (h : matchNumAt key l = some v) : searchNum key l = some v := by
  cases l with
  | nil => exact absurd rfl hne
  | cons c cs => simp only [searchNum, h]

theorem searchStr_eq_of_match (key l v : List Char) (hne : l ≠ [])
    (h : matchStrAt key l = some v) : searchStr key l = some v := by
  cases l with
  | nil => exact absurd rfl hne
  | cons c cs => simp only [searchStr, h]

/-- Skipping a quoted name value during a numeric-field search: no match can
start inside the value, because a candidate key character there is followed
by a name character or the closing quote, never by `=` (possibly after
whitespace — name characters and the quote are not whitespace). -/
theorem searchNum_skip_quoted (key : Char) (hkq : key ≠ '"') :
    ∀ (N rest : List Char), (∀ c ∈ N, isNameChar c = true) →
      searchNum key (N ++ '"' :: rest) = searchNum key rest := by
  intro N
  induction N with
  | nil =>
    intro rest _
    exact searchNum_cons_ne key '"' rest (fun he => hkq he.symm)
  | cons c cs ih =>
    intro rest h
    by_cases hck : c = key
    · subst hck
      have hmatch : matchNumAt c (c :: (cs ++ '"' :: rest)) = none := by
        simp only [matchNumAt, eq_self_iff_true, if_true]
        cases hcs : cs with
        | nil =>
          simp only [List.nil_append]
          rw [dropWhile_cons_of_neg _ _ (by decide)]
          simp
        | cons d ds =>
          have hd : isNameChar d = true := by
            apply h d
            rw [hcs]
            exact List.mem_cons_of_mem _ (List.mem_cons_self _ _)
          simp only [List.cons_append]
          rw [dropWhile_cons_of_neg _ _ (nameChar_not_space d hd)]
          simp [nameChar_ne d '=' hd (by decide)]
      rw [show (c :: cs) ++ '"' :: rest = c :: (cs ++ '"' :: rest) from rfl]
      rw [show searchNum c (c :: (cs ++ '"' :: rest))
            = searchNum c (cs ++ '"' :: rest) from by
        simp only [searchNum, hmatch]]
      exact ih rest (fun d hd => h d (List.mem_cons_of_mem _ hd))
    · rw [List.cons_append, searchNum_cons_ne key c _ (fun he => hck he)]
      exact ih rest (fun d hd => h d (List.mem_cons_of_mem _ hd))

/-! ## Field-match lemmas -/

theorem matchStrAt_name_field (wa wb N rest : List Char)
    (hwa : ∀ c ∈ wa, isSpaceChar c = true) (hwb : ∀ c ∈ wb, isSpaceChar c = true)
    (hN : N ≠ []) (hNq : ∀ c ∈ N, notQuote c = true) :
    matchStrAt nameKey
      (nameKey ++ (wa ++ '=' :: (wb ++ '"' :: (N ++ '"' :: rest)))) = some N := by
  simp only [matchStrAt, dropPrefixOpt_self_append]
  rw [dropWhile_append_of_all wa _ hwa, dropWhile_cons_of_neg _ _ (by decide)]
  simp only [List.head?_cons, Option.some.injEq, eq_self_iff_true, if_true, List.tail_cons]
  rw [dropWhile_append_of_all wb _ hwb, dropWhile_cons_of_neg _ _ (by decide)]
  simp only [List.head?_cons, Option.some.injEq, eq_self_iff_true, if_true, List.tail_cons]
  rw [takeWhile_append_of_all N _ hNq, takeWhile_cons_of_neg _ _ (by decide)]
  rw [dropWhile_append_of_all N _ hNq, dropWhile_cons_of_neg _ _ (by decide)]
  simp [hN]

theorem matchNumAt_num_field (key : Char) (wa wb X rest : List Char) (d : Char)
    (hwa : ∀ c ∈ wa, isSpaceChar c = true) (hwb : ∀ c ∈ wb, isSpaceChar c = true)
    (hX : X ≠ []) (hXn : ∀ c ∈ X, isNumChar c = true) (hd : isNumChar d = false) :
    matchNumAt key (key :: (wa ++ '=' :: (wb ++ (X ++ d :: rest)))) = some X := by
  simp only [matchNumAt, eq_self_iff_true, if_true]
  rw [dropWhile_append_of_all wa _ hwa, dropWhile_cons_of_neg _ _ (by decide)]
  simp only [List.head?_cons, Option.some.injEq, eq_self_iff_true, if_true, List.tail_cons]
  rw [dropWhile_append_of_all wb _ hwb]
  have hwX : ∀ c ∈ X, isSpaceChar c = false := by
    intro c hc
    cases hsp : isSpaceChar c with
    | false => rfl
    | true =>
      rcases spaceChar_cases c hsp with rfl | rfl | rfl | rfl | rfl | rfl <;>
        exact absurd (hXn _ hc) (by decide)
  cases X with
  | nil => exact absurd rfl hX
  | cons a as =>
    rw [List.cons_append, dropWhile_cons_of_neg _ _ (hwX a (List.mem_cons_self _ _))]
    rw [show (a :: (as ++ d :: rest)) = (a :: as) ++ d :: rest from rfl]
    rw [takeWhile_append_of_all (a :: as) _ (fun c hc => hXn c hc),
        takeWhile_cons_of_neg _ _ hd]
    simp

/-! ## Renderers for entity-record replies (the serpent.line reply shapes) -/

/-- An entity record as serialized in a reply: a string `name` value and the
numeric `x`/`y` tokens. -/
structure EntRec where
  name : List Char
  x : List Char
  y : List Char

/-- A record whose name is a well-formed entity name (letters, digits,
hyphen, underscore) and whose coordinates are nonempty numeric tokens. -/
def CleanRec (r : EntRec) : Prop :=
  (r.name ≠ [] ∧ ∀ c ∈ r.name, isNameChar c = true) ∧
    (r.x ≠ [] ∧ ∀ c ∈ r.x, isNumChar c = true) ∧
    (r.y ≠ [] ∧ ∀ c ∈ r.y, isNumChar c = true)

instance (r : EntRec) : Decidable (CleanRec r) := by
  unfold CleanRec
  infer_instance

/-- The typed projection of a record. -/
def entityOf (r : EntRec) : EntityInfo :=
  ⟨String.mk r.name, String.mk r.x, String.mk r.y⟩

/-- The three record fields. -/
inductive EField where
  | fname
  | fx
  | fy
deriving DecidableEq, Repr

/-- One rendered `key = value` field with explicit whitespace around `=`. -/
def renderFieldW (r : EntRec) (wa wb : List Char) : EField → List Char
  | .fname => nameKey ++ (wa ++ '=' :: (wb ++ '"' :: (r.name ++ ['"'])))
  | .fx => 'x' :: (wa ++ '=' :: (wb ++ r.x))
  | .fy => 'y' :: (wa ++ '=' :: (wb ++ r.y))

/-- Comma-space-joined rendered fields (the serpent.line separator). -/
def joinFieldsW (r : EntRec) (wa wb : List Char) : List EField → List Char
  | [] => []
  | [f] => renderFieldW r wa wb f
  | f :: g :: rest =>
    renderFieldW r wa wb f ++ (',' :: ' ' :: joinFieldsW r wa wb (g :: rest))

/-- A rendered record block in a given field order with given whitespace. -/
def renderBlockW (r : EntRec) (wa wb : List Char) (fs : List EField) : List Char :=
  '\x7b' :: (joinFieldsW r wa wb fs ++ ['\x7d'])

/-- The canonical serpent.line rendering: fields in the order name, x, y
with single spaces around `=`. -/
def renderRec (r : EntRec) : List Char :=
  renderBlockW r [' '] [' '] [.fname, .fx, .fy]

/-- The six orders of the three fields. -/
def allFieldOrders : List (List EField) :=
  [[.fname, .fx, .fy], [.fname, .fy, .fx], [.fx, .fname, .fy],
   [.fx, .fy, .fname], [.fy, .fname, .fx], [.fy, .fx, .fname]]

/-! ## Membership helpers for skip conditions -/

theorem forall_ne_nil (k : Char) : ∀ c ∈ ([] : List Char), c ≠ k := by
  intro c hc
  simp at hc

theorem forall_ne_cons (a k : Char) (j : List Char) (ha : a ≠ k)
    (h : ∀ c ∈ j, c ≠ k) : ∀ c ∈ a :: j, c ≠ k := by
  intro c hc
  rcases List.mem_cons.mp hc with rfl | hc
  · exact ha
  · exact h c hc

theorem forall_ne_append (j1 j2 : List Char) (k : Char) (h1 : ∀ c ∈ j1, c ≠ k)
    (h2 : ∀ c ∈ j2, c ≠ k) : ∀ c ∈ j1 ++ j2, c ≠ k := by
  intro c hc
  rcases List.mem_append.mp hc with hc | hc
  · exact h1 c hc
  · exact h2 c hc

theorem ws_all_ne (w : List Char) (k : Char) (hw : ∀ c ∈ w, isSpaceChar c = true)
    (hk : isSpaceChar k = false) : ∀ c ∈ w, c ≠ k :=
  fun c hc => spaceChar_ne c k (hw c hc) hk

theorem nums_all_ne (X : List Char) (k : Char) (hX : ∀ c ∈ X, isNumChar c = true)
    (hk : isNumChar k = false) : ∀ c ∈ X, c ≠ k :=
  fun c hc => numChar_ne c k (hX c hc) hk

/-- All characters of a rendered numeric field differ from a key character
that is no whitespace, no numeric character, not `=` and not the field's
own key. -/
theorem numField_all_ne (fieldKey k : Char) (wa wb X : List Char)
    (hfk : fieldKey ≠ k)
    (hwa : ∀ c ∈ wa, isSpaceChar c = true) (hwb : ∀ c ∈ wb, isSpaceChar c = true)
    (hX : ∀ c ∈ X, isNumChar c = true)
    (hks : isSpaceChar k = false) (hkn : isNumChar k = false) (hke : ('=' : Char) ≠ k) :
    ∀ c ∈ fieldKey :: (wa ++ '=' :: (wb ++ X)), c ≠ k :=
  forall_ne_cons _ _ _ hfk
    (forall_ne_append _ _ _ (ws_all_ne wa k hwa hks)
      (forall_ne_cons _ _ _ hke
        (forall_ne_append _ _ _ (ws_all_ne wb k hwb hks) (nums_all_ne X k hX hkn))))

/-- Per-block field extraction is correct for a clean record rendered in any
of the six field orders, with arbitrary whitespace around `=`, and with any
run of stray left braces prepended to the block (as happens to the first
block of a reply, which absorbs the outer sequence brace). -/
theorem extractEntity_renderBlockW (junk wa wb : List Char) (perm : List EField)
    (r : EntRec) (hj : ∀ c ∈ junk, c = '\x7b')
    (hwa : ∀ c ∈ wa, isSpaceChar c = true) (hwb : ∀ c ∈ wb, isSpaceChar c = true)
    (hperm : perm ∈ allFieldOrders) (hr : CleanRec r) :
    extractEntity (junk ++ renderBlockW r wa wb perm) = some (entityOf r) := by
  obtain ⟨⟨hn1, hn2⟩, ⟨hx1, hx2⟩, ⟨hy1, hy2⟩⟩ := hr
  have hnq : ∀ c ∈ r.name, notQuote c = true := fun c hc => nameChar_notQuote c (hn2 c hc)
  have hwaN : ∀ c ∈ wa, c ≠ 'n' := ws_all_ne wa 'n' hwa (by decide)
  have hwaX : ∀ c ∈ wa, c ≠ 'x' := ws_all_ne wa 'x' hwa (by decide)
  have hwaY : ∀ c ∈ wa, c ≠ 'y' := ws_all_ne wa 'y' hwa (by decide)
  have hwbN : ∀ c ∈ wb, c ≠ 'n' := ws_all_ne wb 'n' hwb (by decide)
  have hwbX : ∀ c ∈ wb, c ≠ 'x' := ws_all_ne wb 'x' hwb (by decide)
  have hwbY : ∀ c ∈ wb, c ≠ 'y' := ws_all_ne wb 'y' hwb (by decide)
  have hxN : ∀ c ∈ r.x, c ≠ 'n' := nums_all_ne r.x 'n' hx2 (by decide)
  have hxY : ∀ c ∈ r.x, c ≠ 'y' := nums_all_ne r.x 'y' hx2 (by decide)
  have hyN : ∀ c ∈ r.y, c ≠ 'n' := nums_all_ne r.y 'n' hy2 (by decide)
  have hyX : ∀ c ∈ r.y, c ≠ 'x' := nums_all_ne r.y 'x' hy2 (by decide)
  have hjN : ∀ c ∈ junk, c ≠ 'n' := fun c hc => by rw [hj c hc]; decide
  have hjX : ∀ c ∈ junk, c ≠ 'x' := fun c hc => by rw [hj c hc]; decide
  have hjY : ∀ c ∈ junk, c ≠ 'y' := fun c hc => by rw [hj c hc]; decide
  simp only [allFieldOrders, List.mem_cons, List.mem_singleton] at hperm
  rcases hperm with rfl | rfl | rfl | rfl | rfl | rfl | hperm
  · -- name, x, y
    have e : junk ++ renderBlockW r wa wb [.fname, .fx, .fy]
        = junk ++ ('\x7b' :: (nameKey ++ (wa ++ '=' :: (wb ++ '"' :: (r.name ++ '"' ::
            (',' :: (' ' :: ('x' :: (wa ++ '=' :: (wb ++ (r.x ++ (',' :: (' ' :: ('y' ::
              (wa ++ '=' :: (wb ++ (r.y ++ ('\x7d' :: [])))))))))))))))))) := by
      simp [renderBlockW, joinFieldsW, renderFieldW, nameKey]
    have hname : searchStr nameKey (junk ++ renderBlockW r wa wb [.fname, .fx, .fy])
        = some r.name := by
      rw [e, searchStr_append_ne junk _ hjN, searchStr_cons_ne '\x7b' _ (by decide)]
      exact searchStr_eq_of_match nameKey _ _ (by simp [nameKey])
        (matchStrAt_name_field wa wb r.name _ hwa hwb hn1 hnq)
    have hx : searchNum 'x' (junk ++ renderBlockW r wa wb [.fname, .fx, .fy])
        = some r.x := by
      rw [e, searchNum_append_ne 'x' junk _ hjX, searchNum_cons_ne 'x' '\x7b' _ (by decide)]
      rw [searchNum_append_ne 'x' nameKey _ (by decide)]
      rw [searchNum_append_ne 'x' wa _ hwaX, searchNum_cons_ne 'x' '=' _ (by decide)]
      rw [searchNum_append_ne 'x' wb _ hwbX, searchNum_cons_ne 'x' '"' _ (by decide)]
      rw [searchNum_skip_quoted 'x' (by decide) r.name _ hn2]
      rw [searchNum_cons_ne 'x' ',' _ (by decide), searchNum_cons_ne 'x' ' ' _ (by decide)]
      exact searchNum_eq_of_match 'x' _ _ (by simp)
        (matchNumAt_num_field 'x' wa wb r.x _ ',' hwa hwb hx1 hx2 (by decide))
    have hy : searchNum 'y' (junk ++ renderBlockW r wa wb [.fname, .fx, .fy])
        = some r.y := by
      rw [e, searchNum_append_ne 'y' junk _ hjY, searchNum_cons_ne 'y' '\x7b' _ (by decide)]
      rw [searchNum_append_ne 'y' nameKey _ (by decide)]
      rw [searchNum_append_ne 'y' wa _ hwaY, searchNum_cons_ne 'y' '=' _ (by decide)]
      rw [searchNum_append_ne 'y' wb _ hwbY, searchNum_cons_ne 'y' '"' _ (by decide)]
      rw [searchNum_skip_quoted 'y' (by decide) r.name _ hn2]
      rw [searchNum_cons_ne 'y' ',' _ (by decide), searchNum_cons_ne 'y' ' ' _ (by decide)]
      rw [searchNum_cons_ne 'y' 'x' _ (by decide)]
      rw [searchNum_append_ne 'y' wa _ hwaY, searchNum_cons_ne 'y' '=' _ (by decide)]
      rw [searchNum_append_ne 'y' wb _ hwbY, searchNum_append_ne 'y' r.x _ hxY]
      rw [searchNum_cons_ne 'y' ',' _ (by decide), searchNum_cons_ne 'y' ' ' _ (by decide)]
      exact searchNum_eq_of_match 'y' _ _ (by simp)
        (matchNumAt_num_field 'y' wa wb r.y _ '\x7d' hwa hwb hy1 hy2 (by decide))
    unfold extractEntity
    rw [hname, hx, hy]
    rfl
  · -- name, y, x
    have e : junk ++ renderBlockW r wa wb [.fname, .fy, .fx]
        = junk ++ ('\x7b' :: (nameKey ++ (wa ++ '=' :: (wb ++ '"' :: (r.name ++ '"' ::
            (',' :: (' ' :: ('y' :: (wa ++ '=' :: (wb ++ (r.y ++ (',' :: (' ' :: ('x' ::
              (wa ++ '=' :: (wb ++ (r.x ++ ('\x7d' :: [])))))))))))))))))) := by
      simp [renderBlockW, joinFieldsW, renderFieldW, nameKey]
    have hname : searchStr nameKey (junk ++ renderBlockW r wa wb [.fname, .fy, .fx])
        = some r.name := by
      rw [e, searchStr_append_ne junk _ hjN, searchStr_cons_ne '\x7b' _ (by decide)]
      exact searchStr_eq_of_match nameKey _ _ (by simp [nameKey])
        (matchStrAt_name_field wa wb r.name _ hwa hwb hn1 hnq)
    have hy : searchNum 'y' (junk ++ renderBlockW r wa wb [.fname, .fy, .fx])
        = some r.y := by
      rw [e, searchNum_append_ne 'y' junk _ hjY, searchNum_cons_ne 'y' '\x7b' _ (by decide)]
      rw [searchNum_append_ne 'y' nameKey _ (by decide)]
      rw [searchNum_append_ne 'y' wa _ hwaY, searchNum_cons_ne 'y' '=' _ (by decide)]
      rw [searchNum_append_ne 'y' wb _ hwbY, searchNum_cons_ne 'y' '"' _ (by decide)]
      rw [searchNum_skip_quoted 'y' (by decide) r.name _ hn2]
      rw [searchNum_cons_ne 'y' ',' _ (by decide), searchNum_cons_ne 'y' ' ' _ (by decide)]
      exact searchNum_eq_of_match 'y' _ _ (by simp)
        (matchNumAt_num_field 'y' wa wb r.y _ ',' hwa hwb hy1 hy2 (by decide))
    have hx : searchNum 'x' (junk ++ renderBlockW r wa wb [.fname, .fy, .fx])
        = some r.x := by
      rw [e, searchNum_append_ne 'x' junk _ hjX, searchNum_cons_ne 'x' '\x7b' _ (by decide)]
      rw [searchNum_append_ne 'x' nameKey _ (by decide)]
      rw [searchNum_append_ne 'x' wa _ hwaX, searchNum_cons_ne 'x' '=' _ (by decide)]
      rw [searchNum_append_ne 'x' wb _ hwbX, searchNum_cons_ne 'x' '"' _ (by decide)]
      rw [searchNum_skip_quoted 'x' (by decide) r.name _ hn2]
      rw [searchNum_cons_ne 'x' ',' _ (by decide), searchNum_cons_ne 'x' ' ' _ (by decide)]
      rw [searchNum_cons_ne 'x' 'y' _ (by decide)]
      rw [searchNum_append_ne 'x' wa _ hwaX, searchNum_cons_ne 'x' '=' _ (by decide)]
      rw [searchNum_append_ne 'x' wb _ hwbX, searchNum_append_ne 'x' r.y _ hyX]
      rw [searchNum_cons_ne 'x' ',' _ (by decide), searchNum_cons_ne 'x' ' ' _ (by decide)]
      exact searchNum_eq_of_match 'x' _ _ (by simp)
        (matchNumAt_num_field 'x' wa wb r.x _ '\x7d' hwa hwb hx1 hx2 (by decide))
    unfold extractEntity
    rw [hname, hx, hy]
    rfl
  · -- x, name, y
    have e : junk ++ renderBlockW r wa wb [.fx, .fname, .fy]
        = junk ++ ('\x7b' :: ('x' :: (wa ++ '=' :: (wb ++ (r.x ++ (',' :: (' ' ::
            (nameKey ++ (wa ++ '=' :: (wb ++ '"' :: (r.name ++ '"' :: (',' :: (' ' ::
              ('y' :: (wa ++ '=' :: (wb ++ (r.y ++ ('\x7d' :: [])))))))))))))))))) := by
      simp [renderBlockW, joinFieldsW, renderFieldW, nameKey]
    have hx : searchNum 'x' (junk ++ renderBlockW r wa wb [.fx, .fname, .fy])
        = some r.x := by
      rw [e, searchNum_append_ne 'x' junk _ hjX, searchNum_cons_ne 'x' '\x7b' _ (by decide)]
      exact searchNum_eq_of_match 'x' _ _ (by simp)
        (matchNumAt_num_field 'x' wa wb r.x _ ',' hwa hwb hx1 hx2 (by decide))
    have hname : searchStr nameKey (junk ++ renderBlockW r wa wb [.fx, .fname, .fy])
        = some r.name := by
      rw [e, searchStr_append_ne junk _ hjN, searchStr_cons_ne '\x7b' _ (by decide)]
      rw [searchStr_cons_ne 'x' _ (by decide)]
      rw [searchStr_append_ne wa _ hwaN, searchStr_cons_ne '=' _ (by decide)]
      rw [searchStr_append_ne wb _ hwbN, searchStr_append_ne r.x _ hxN]
      rw [searchStr_cons_ne ',' _ (by decide), searchStr_cons_ne ' ' _ (by decide)]
      exact searchStr_eq_of_match nameKey _ _ (by simp [nameKey])
        (matchStrAt_name_field wa wb r.name _ hwa hwb hn1 hnq)
    have hy : searchNum 'y' (junk ++ renderBlockW r wa wb [.fx, .fname, .fy])
        = some r.y := by
      rw [e, searchNum_append_ne 'y' junk _ hjY, searchNum_cons_ne 'y' '\x7b' _ (by decide)]
      rw [searchNum_cons_ne 'y' 'x' _ (by decide)]
      rw [searchNum_append_ne 'y' wa _ hwaY, searchNum_cons_ne 'y' '=' _ (by decide)]
      rw [searchNum_append_ne 'y' wb _ hwbY, searchNum_append_ne 'y' r.x _ hxY]
      rw [searchNum_cons_ne 'y' ',' _ (by decide), searchNum_cons_ne 'y' ' ' _ (by decide)]
      rw [searchNum_append_ne 'y' nameKey _ (by decide)]
      rw [searchNum_append_ne 'y' wa _ hwaY, searchNum_cons_ne 'y' '=' _ (by decide)]
      rw [searchNum_append_ne 'y' wb _ hwbY, searchNum_cons_ne 'y' '"' _ (by decide)]
      rw [searchNum_skip_quoted 'y' (by decide) r.name _ hn2]
      rw [searchNum_cons_ne 'y' ',' _ (by decide), searchNum_cons_ne 'y' ' ' _ (by decide)]
      exact searchNum_eq_of_match 'y' _ _ (by simp)
        (matchNumAt_num_field 'y' wa wb r.y _ '\x7d' hwa hwb hy1 hy2 (by decide))
    unfold extractEntity
    rw [hname, hx, hy]
    rfl
  · -- x, y, name
    have e : junk ++ renderBlockW r wa wb [.fx, .fy, .fname]
        = junk ++ ('\x7b' :: ('x' :: (wa ++ '=' :: (wb ++ (r.x ++ (',' :: (' ' ::
            ('y' :: (wa ++ '=' :: (wb ++ (r.y ++ (',' :: (' ' :: (nameKey ++
              (wa ++ '=' :: (wb ++ '"' :: (r.name ++ '"' :: ('\x7d' :: [])))))))))))))))))) := by
      simp [renderBlockW, joinFieldsW, renderFieldW, nameKey]
    have hx : searchNum 'x' (junk ++ renderBlockW r wa wb [.fx, .fy, .fname])
        = some r.x := by
      rw [e, searchNum_append_ne 'x' junk _ hjX, searchNum_cons_ne 'x' '\x7b' _ (by decide)]
      exact searchNum_eq_of_match 'x' _ _ (by simp)
        (matchNumAt_num_field 'x' wa wb r.x _ ',' hwa hwb hx1 hx2 (by decide))
    have hy : searchNum 'y' (junk ++ renderBlockW r wa wb [.fx, .fy, .fname])
        = some r.y := by
      rw [e, searchNum_append_ne 'y' junk _ hjY, searchNum_cons_ne 'y' '\x7b' _ (by decide)]
      rw [searchNum_cons_ne 'y' 'x' _ (by decide)]
      rw [searchNum_append_ne 'y' wa _ hwaY, searchNum_cons_ne 'y' '=' _ (by decide)]
      rw [searchNum_append_ne 'y' wb _ hwbY, searchNum_append_ne 'y' r.x _ hxY]
      rw [searchNum_cons_ne 'y' ',' _ (by decide), searchNum_cons_ne 'y' ' ' _ (by decide)]
      exact searchNum_eq_of_match 'y' _ _ (by simp)
        (matchNumAt_num_field 'y' wa wb r.y _ ',' hwa hwb hy1 hy2 (by decide))
    have hname : searchStr nameKey (junk ++ renderBlockW r wa wb [.fx, .fy, .fname])
        = some r.name := by
      rw [e, searchStr_append_ne junk _ hjN, searchStr_cons_ne '\x7b' _ (by decide)]
      rw [searchStr_cons_ne 'x' _ (by decide)]
      rw [searchStr_append_ne wa _ hwaN, searchStr_cons_ne '=' _ (by decide)]
      rw [searchStr_append_ne wb _ hwbN, searchStr_append_ne r.x _ hxN]
      rw [searchStr_cons_ne ',' _ (by decide), searchStr_cons_ne ' ' _ (by decide)]
      rw [searchStr_cons_ne 'y' _ (by decide)]
      rw [searchStr_append_ne wa _ hwaN, searchStr_cons_ne '=' _ (by decide)]
      rw [searchStr_append_ne wb _ hwbN, searchStr_append_ne r.y _ hyN]
      rw [searchStr_cons_ne ',' _ (by decide), searchStr_cons_ne ' ' _ (by decide)]
      exact searchStr_eq_of_match nameKey _ _ (by simp [nameKey])
        (matchStrAt_name_field wa wb r.name _ hwa hwb hn1 hnq)
    unfold extractEntity
    rw [hname, hx, hy]
    rfl
  · -- y, name, x
    have e : junk ++ renderBlockW r wa wb [.fy, .fname, .fx]
        = junk ++ ('\x7b' :: ('y' :: (wa ++ '=' :: (wb ++ (r.y ++ (',' :: (' ' ::
            (nameKey ++ (wa ++ '=' :: (wb ++ '"' :: (r.name ++ '"' :: (',' :: (' ' ::
              ('x' :: (wa ++ '=' :: (wb ++ (r.x ++ ('\x7d' :: [])))))))))))))))))) := by
      simp [renderBlockW, joinFieldsW, renderFieldW, nameKey]
    have hy : searchNum 'y' (junk ++ renderBlockW r wa wb [.fy, .fname, .fx])
        = some r.y := by
      rw [e, searchNum_append_ne 'y' junk _ hjY, searchNum_cons_ne 'y' '\x7b' _ (by decide)]
      exact searchNum_eq_of_match 'y' _ _ (by simp)
        (matchNumAt_num_field 'y' wa wb r.y _ ',' hwa hwb hy1 hy2 (by decide))
    have hname : searchStr nameKey (junk ++ renderBlockW r wa wb [.fy, .fname, .fx])
        = some r.name := by
      rw [e, searchStr_append_ne junk _ hjN, searchStr_cons_ne '\x7b' _ (by decide)]
      rw [searchStr_cons_ne 'y' _ (by decide)]
      rw [searchStr_append_ne wa _ hwaN, searchStr_cons_ne '=' _ (by decide)]
      rw [searchStr_append_ne wb _ hwbN, searchStr_append_ne r.y _ hyN]
      rw [searchStr_cons_ne ',' _ (by decide), searchStr_cons_ne ' ' _ (by decide)]
      exact searchStr_eq_of_match nameKey _ _ (by simp [nameKey])
        (matchStrAt_name_field wa wb r.name _ hwa hwb hn1 hnq)
    have hx : searchNum 'x' (junk ++ renderBlockW r wa wb [.fy, .fname, .fx])
        = some r.x := by
      rw [e, searchNum_append_ne 'x' junk _ hjX, searchNum_cons_ne 'x' '\x7b' _ (by decide)]
      rw [searchNum_cons_ne 'x' 'y' _ (by decide)]
      rw [searchNum_append_ne 'x' wa _ hwaX, searchNum_cons_ne 'x' '=' _ (by decide)]
      rw [searchNum_append_ne 'x' wb _ hwbX, searchNum_append_ne 'x' r.y _ hyX]
      rw [searchNum_cons_ne 'x' ',' _ (by decide), searchNum_cons_ne 'x' ' ' _ (by decide)]
      rw [searchNum_append_ne 'x' nameKey _ (by decide)]
      rw [searchNum_append_ne 'x' wa _ hwaX, searchNum_cons_ne 'x' '=' _ (by decide)]
      rw [searchNum_append_ne 'x' wb _ hwbX, searchNum_cons_ne 'x' '"' _ (by decide)]
      rw [searchNum_skip_quoted 'x' (by decide) r.name _ hn2]
      rw [searchNum_cons_ne 'x' ',' _ (by decide), searchNum_cons_ne 'x' ' ' _ (by decide)]
      exact searchNum_eq_of_match 'x' _ _ (by simp)
        (matchNumAt_num_field 'x' wa wb r.x _ '\x7d' hwa hwb hx1 hx2 (by decide))
    unfold extractEntity
    rw [hname, hx, hy]
    rfl
  · -- y, x, name
    have e : junk ++ renderBlockW r wa wb [.fy, .fx, .fname]
        = junk ++ ('\x7b' :: ('y' :: (wa ++ '=' :: (wb ++ (r.y ++ (',' :: (' ' ::
            ('x' :: (wa ++ '=' :: (wb ++ (r.x ++ (',' :: (' ' :: (nameKey ++
              (wa ++ '=' :: (wb ++ '"' :: (r.name ++ '"' :: ('\x7d' :: [])))))))))))))))))) := by
      simp [renderBlockW, joinFieldsW, renderFieldW, nameKey]
    have hy : searchNum 'y' (junk ++ renderBlockW r wa wb [.fy, .fx, .fname])
        = some r.y := by
      rw [e, searchNum_append_ne 'y' junk _ hjY, searchNum_cons_ne 'y' '\x7b' _ (by decide)]
      exact searchNum_eq_of_match 'y' _ _ (by simp)
        (matchNumAt_num_field 'y' wa wb r.y _ ',' hwa hwb hy1 hy2 (by decide))
    have hx : searchNum 'x' (junk ++ renderBlockW r wa wb [.fy, .fx, .fname])
        = some r.x := by
      rw [e, searchNum_append_ne 'x' junk _ hjX, searchNum_cons_ne 'x' '\x7b' _ (by decide)]
      rw [searchNum_cons_ne 'x' 'y' _ (by decide)]
      rw [searchNum_append_ne 'x' wa _ hwaX, searchNum_cons_ne 'x' '=' _ (by decide)]
      rw [searchNum_append_ne 'x' wb _ hwbX, searchNum_append_ne 'x' r.y _ hyX]
      rw [searchNum_cons_ne 'x' ',' _ (by decide), searchNum_cons_ne 'x' ' ' _ (by decide)]
      exact searchNum_eq_of_match 'x' _ _ (by simp)
        (matchNumAt_num_field 'x' wa wb r.x _ ',' hwa hwb hx1 hx2 (by decide))
    have hname : searchStr nameKey (junk ++ renderBlockW r wa wb [.fy, .fx, .fname])
        = some r.name := by
      rw [e, searchStr_append_ne junk _ hjN, searchStr_cons_ne '\x7b' _ (by decide)]
      rw [searchStr_cons_ne 'y' _ (by decide)]
      rw [searchStr_append_ne wa _ hwaN, searchStr_cons_ne '=' _ (by decide)]
      rw [searchStr_append_ne wb _ hwbN, searchStr_append_ne r.y _ hyN]
      rw [searchStr_cons_ne ',' _ (by decide), searchStr_cons_ne ' ' _ (by decide)]
      rw [searchStr_cons_ne 'x' _ (by decide)]
      rw [searchStr_append_ne wa _ hwaN, searchStr_cons_ne '=' _ (by decide)]
      rw [searchStr_append_ne wb _ hwbN, searchStr_append_ne r.x _ hxN]
      rw [searchStr_cons_ne ',' _ (by decide), searchStr_cons_ne ' ' _ (by decide)]
      exact searchStr_eq_of_match nameKey _ _ (by simp [nameKey])
        (matchStrAt_name_field wa wb r.name _ hwa hwb hn1 hnq)
    unfold extractEntity
    rw [hname, hx, hy]
    rfl
  · simp at hperm

/-! ## Block-partition lemmas for sibling-record safety (claim C1) -/

/-- Every left brace occurring in `l` is followed, within `l`, by a right
brace. Any list ending in a right brace has this property, so every
rendered record block has it regardless of braces inside its values. -/
def EndsClosed (l : List Char) : Prop :=
  ∀ l1 l2, l = l1 ++ '\x7b' :: l2 → '\x7d' ∈ l2

theorem endsClosed_concat (m : List Char) : EndsClosed (m ++ ['\x7d']) := by
  intro l1 l2 heq
  rcases List.eq_nil_or_concat l2 with rfl | ⟨l2', c, rfl⟩
  · have h1 : (l1 ++ ['\x7b']).getLast? = (m ++ ['\x7d']).getLast? := by
      rw [← heq]
    rw [List.getLast?_concat, List.getLast?_concat] at h1
    simp at h1
  · simp only [List.concat_eq_append] at heq
    have h1 : ((l1 ++ '\x7b' :: l2') ++ [c]).getLast? = (m ++ ['\x7d']).getLast? := by
      rw [show (l1 ++ '\x7b' :: l2') ++ [c] = l1 ++ '\x7b' :: (l2' ++ [c]) by simp]
      rw [← heq]
    rw [List.getLast?_concat, List.getLast?_concat] at h1
    simp at h1
    subst h1
    simp

theorem endsClosed_suffix (x y : List Char) (h : EndsClosed (x ++ y)) :
    EndsClosed y := by
  intro l1 l2 heq
  exact h (x ++ l1) l2 (by rw [heq, List.append_assoc])

theorem exists_first_rbrace (l : List Char) (h : '\x7d' ∈ l) :
    ∃ a b, l = a ++ '\x7d' :: b ∧ ∀ c ∈ a, c ≠ '\x7d' := by
  induction l with
  | nil => simp at h
  | cons c cs ih =>
    by_cases hc : c = '\x7d'
    · exact ⟨[], cs, by rw [hc]; rfl, by simp⟩
    · have hmem : '\x7d' ∈ cs := by
        rcases List.mem_cons.mp h with h1 | h1
        · exact absurd h1.symm hc
        · exact h1
      obtain ⟨a, b, heq, ha⟩ := ih hmem
      refine ⟨c :: a, b, by rw [heq]; rfl, ?_⟩
      intro d hd
      rcases List.mem_cons.mp hd with rfl | hd
      · exact hc
      · exact ha d hd

theorem findBlocksAux_none_cons_ne (c : Char) (cs : List Char) (h : c ≠ '\x7b') :
    findBlocksAux none (c :: cs) = findBlocksAux none cs := by
  simp only [findBlocksAux, if_neg h]

theorem findBlocksAux_none_skip (j l : List Char) (h : ∀ c ∈ j, c ≠ '\x7b') :
    findBlocksAux none (j ++ l) = findBlocksAux none l := by
  induction j with
  | nil => rfl
  | cons c cs ih =>
    rw [List.cons_append, findBlocksAux_none_cons_ne c _ (h c (List.mem_cons_self _ _))]
    exact ih (fun d hd => h d (List.mem_cons_of_mem _ hd))

theorem findBlocksAux_inside (a : List Char) :
    ∀ (acc b : List Char), (∀ c ∈ a, c ≠ '\x7d') →
      findBlocksAux (some acc) (a ++ '\x7d' :: b) =
        (if acc.reverse ++ a = [] then findBlocksAux none b
         else ('\x7b' :: (acc.reverse ++ a) ++ ['\x7d']) :: findBlocksAux none b) := by
  induction a with
  | nil =>
    intro acc b _
    simp only [List.nil_append, List.append_nil]
    simp only [findBlocksAux, eq_self_iff_true, if_true]
    by_cases hacc : acc = []
    · subst hacc
      simp
    · rw [if_neg hacc, if_neg (by simp [hacc])]
  | cons c cs ih =>
    intro acc b h
    have hc : c ≠ '\x7d' := h c (List.mem_cons_self _ _)
    simp only [List.cons_append, findBlocksAux, if_neg hc, List.append_eq]
    rw [ih (c :: acc) b (fun d hd => h d (List.mem_cons_of_mem _ hd))]
    have hrev : (c :: acc).reverse ++ cs = acc.reverse ++ (c :: cs) := by
      simp
    rw [hrev]
    simp [List.append_assoc]

theorem findBlocksAux_append : ∀ (n : Nat) (l rest : List Char), l.length ≤ n →
    EndsClosed l →
    findBlocksAux none (l ++ rest) = findBlocksAux none l ++ findBlocksAux none rest := by
  intro n
  induction n with
  | zero =>
    intro l rest hl _
    have : l = [] := List.eq_nil_of_length_eq_zero (Nat.le_zero.mp hl)
    subst this
    simp [findBlocksAux]
  | succ n ih =>
    intro l rest hl h
    cases l with
    | nil => simp [findBlocksAux]
    | cons c cs =>
      by_cases hc : c = '\x7b'
      · subst hc
        have hmem : '\x7d' ∈ cs := h [] cs rfl
        obtain ⟨a, b, rfl, ha⟩ := exists_first_rbrace cs hmem
        have hb : EndsClosed b :=
          endsClosed_suffix ('\x7b' :: (a ++ ['\x7d'])) b (by
            rw [show '\x7b' :: (a ++ ['\x7d']) ++ b = '\x7b' :: (a ++ '\x7d' :: b) by simp]
            exact h)
        have hblen : b.length ≤ n := by
          simp only [List.length_cons, List.length_append] at hl
          omega
        rw [show ('\x7b' :: (a ++ '\x7d' :: b)) ++ rest
              = '\x7b' :: (a ++ '\x7d' :: (b ++ rest)) by simp]
        simp only [findBlocksAux, eq_self_iff_true, if_true]
        rw [findBlocksAux_inside a [] (b ++ rest) ha, findBlocksAux_inside a [] b ha]
        rw [ih b rest hblen hb]
        by_cases hae : a = []
        · subst hae
          simp
        · rw [if_neg (by simp [hae]), if_neg (by simp [hae])]
          simp
      · rw [show (c :: cs) ++ rest = c :: (cs ++ rest) from rfl,
            findBlocksAux_none_cons_ne c _ hc, findBlocksAux_none_cons_ne c cs hc]
        have hcs : EndsClosed cs := fun l1 l2 heq => h (c :: l1) l2 (by rw [heq]; rfl)
        exact ih cs rest (by simp only [List.length_cons] at hl; omega) hcs

theorem findBlocks_append (l rest : List Char) (h : EndsClosed l) :
    findBlocks (l ++ rest) = findBlocks l ++ findBlocks rest :=
  findBlocksAux_append l.length l rest le_rfl h

/-! ## Rendered replies: consecutive sibling record blocks (claim C1) -/

/-- The tail of a serpent.line sequence body: `, ` before each further
record. -/
def tailRecs : List EntRec → List Char
  | [] => []
  | r :: rest => ',' :: ' ' :: (renderRec r ++ tailRecs rest)

/-- The body of a serpent.line sequence: the records joined by `, `. -/
def bodyRecs : List EntRec → List Char
  | [] => []
  | r :: rest => renderRec r ++ tailRecs rest

/-- A full serpent.line reply for a list of entity records: the sibling
record blocks, wrapped in the outer sequence braces. -/
def renderReply (rs : List EntRec) : List Char :=
  '\x7b' :: (bodyRecs rs ++ ['\x7d'])

theorem endsClosed_renderRec (r : EntRec) : EndsClosed (renderRec r) := by
  rw [show renderRec r
        = ('\x7b' :: joinFieldsW r [' '] [' '] [.fname, .fx, .fy]) ++ ['\x7d'] from by
    simp [renderRec, renderBlockW]]
  exact endsClosed_concat _

theorem canonInterior_props (r : EntRec) (hr : CleanRec r) :
    joinFieldsW r [' '] [' '] [.fname, .fx, .fy] ≠ [] ∧
      ∀ c ∈ joinFieldsW r [' '] [' '] [.fname, .fx, .fy], c ≠ '\x7d' := by
  obtain ⟨⟨hn1, hn2⟩, ⟨hx1, hx2⟩, ⟨hy1, hy2⟩⟩ := hr
  constructor
  · simp [joinFieldsW, renderFieldW, nameKey]
  · have hnames : ∀ c ∈ r.name, c ≠ '\x7d' :=
      fun c hc => nameChar_ne c '\x7d' (hn2 c hc) (by decide)
    have hxs : ∀ c ∈ r.x, c ≠ '\x7d' := nums_all_ne r.x '\x7d' hx2 (by decide)
    have hys : ∀ c ∈ r.y, c ≠ '\x7d' := nums_all_ne r.y '\x7d' hy2 (by decide)
    simp +decide only [joinFieldsW, renderFieldW, nameKey, List.forall_mem_append,
      List.forall_mem_cons, true_and, and_true]
    exact ⟨fun c hc => hnames c hc, fun c hc => hxs c hc, fun c hc => hys c hc⟩

theorem findBlocks_renderRec (r : EntRec) (hr : CleanRec r) :
    findBlocks (renderRec r) = [renderRec r] := by
  obtain ⟨hne, hnorb⟩ := canonInterior_props r hr
  have h1 : findBlocks (renderRec r)
      = findBlocksAux (some [])
          (joinFieldsW r [' '] [' '] [.fname, .fx, .fy] ++ '\x7d' :: []) := rfl
  rw [h1, findBlocksAux_inside _ [] [] hnorb, if_neg (by simpa using hne)]
  simp [renderRec, renderBlockW, findBlocksAux]

theorem findBlocks_outer_renderRec (r : EntRec) (hr : CleanRec r) :
    findBlocks ('\x7b' :: renderRec r) = ['\x7b' :: renderRec r] := by
  obtain ⟨hne, hnorb⟩ := canonInterior_props r hr
  have h1 : findBlocks ('\x7b' :: renderRec r)
      = findBlocksAux (some [])
          (('\x7b' :: joinFieldsW r [' '] [' '] [.fname, .fx, .fy]) ++ '\x7d' :: []) := rfl
  rw [h1, findBlocksAux_inside _ [] [] (forall_ne_cons _ _ _ (by decide) hnorb),
      if_neg (by simp)]
  simp [renderRec, renderBlockW, findBlocksAux]

theorem renderRec_mem_tail : ∀ (rest : List EntRec) (r : EntRec), r ∈ rest → CleanRec r →
    renderRec r ∈ findBlocks (tailRecs rest ++ ['\x7d']) := by
  intro rest
  induction rest with
  | nil =>
    intro r hr _
    simp at hr
  | cons p rest' ih =>
    intro r hr hc
    rw [show tailRecs (p :: rest') ++ ['\x7d']
          = ',' :: ' ' :: (renderRec p ++ (tailRecs rest' ++ ['\x7d'])) by
      simp [tailRecs]]
    unfold findBlocks
    rw [findBlocksAux_none_cons_ne ',' _ (by decide),
        findBlocksAux_none_cons_ne ' ' _ (by decide)]
    have hsplit := findBlocks_append (renderRec p) (tailRecs rest' ++ ['\x7d'])
      (endsClosed_renderRec p)
    unfold findBlocks at hsplit
    rw [hsplit]
    rcases List.mem_cons.mp hr with rfl | hr'
    · rw [show findBlocksAux none (renderRec r) = findBlocks (renderRec r) from rfl,
          findBlocks_renderRec r hc]
      exact List.mem_append_left _ (List.mem_singleton_self _)
    · exact List.mem_append_right _ (ih r hr' hc)

/-- Claim C1: in a reply containing any number of sibling record blocks —
including records whose string values contain `\x7b` or `\x7d` characters —
every record with a well-formed name and numeric coordinates is still
extracted with its correct fields by `_parse_entity_list`: braces inside a
sibling's string value never corrupt the other records, because every match
of the block scan stays within the record in which it starts (each rendered
record ends with a right brace). -/
theorem entity_sibling_brace_safety (rs : List EntRec) (r : EntRec)
    (hr : r ∈ rs) (hclean : CleanRec r) :
    entityOf r ∈ parseEntityList (String.mk (renderReply rs)) := by
  cases rs with
  | nil => simp at hr
  | cons r0 rest =>
    have hreply : renderReply (r0 :: rest)
        = ('\x7b' :: renderRec r0) ++ (tailRecs rest ++ ['\x7d']) := by
      simp [renderReply, bodyRecs]
    have hec : EndsClosed ('\x7b' :: renderRec r0) := by
      rw [show '\x7b' :: renderRec r0
            = ('\x7b' :: '\x7b' :: joinFieldsW r0 [' '] [' '] [.fname, .fx, .fy])
              ++ ['\x7d'] from by simp [renderRec, renderBlockW]]
      exact endsClosed_concat _
    have hblocks : parseEntityList (String.mk (renderReply (r0 :: rest)))
        = (findBlocks ('\x7b' :: renderRec r0)
            ++ findBlocks (tailRecs rest ++ ['\x7d'])).filterMap extractEntity := by
      unfold parseEntityList
      rw [show (String.mk (renderReply (r0 :: rest))).data
            = renderReply (r0 :: rest) from rfl]
      rw [hreply, findBlocks_append _ _ hec]
    rw [hblocks, List.filterMap_append]
    rcases List.mem_cons.mp hr with rfl | hr'
    · apply List.mem_append_left
      rw [findBlocks_outer_renderRec r hclean]
      have hx : extractEntity ('\x7b' :: renderRec r) = some (entityOf r) := by
        have hm := extractEntity_renderBlockW ['\x7b'] [' '] [' ']
          [.fname, .fx, .fy] r (by decide) (by decide) (by decide)
          (by decide) hclean
        simpa [renderRec] using hm
      simp [List.filterMap_cons, hx]
    · apply List.mem_append_right
      have hmem := renderRec_mem_tail rest r hr' hclean
      have hx : extractEntity (renderRec r) = some (entityOf r) := by
        have hm := extractEntity_renderBlockW [] [' '] [' ']
          [.fname, .fx, .fy] r (by simp) (by decide) (by decide)
          (by decide) hclean
        simpa [renderRec] using hm
      exact List.mem_filterMap.mpr ⟨renderRec r, hmem, hx⟩

/-! ## Inventory decoding (`_parse_inventory`, claim C3) -/

def countKey : List Char := ['c', 'o', 'u', 'n', 't']

/-- Match attempt of the `_parse_inventory` pattern
`\x7bcount\s*=\s*(\d+),\s*name\s*=\s*"([^"]+)"\x7d` at the current position:
a left brace, the literal `count`, `=` with whitespace, the digit capture,
an immediate comma, whitespace, the literal `name`, `=` with whitespace, the
quoted name capture, and the closing brace immediately after the quote.
Returns the two captures and the rest of the input after the match. -/
def matchInvAt (l : List Char) : Option (List Char × List Char × List Char) :=
  match l with
  | [] => none
  | c :: r1 =>
    if c = '\x7b' then
      match dropPrefixOpt countKey r1 with
      | none => none
      | some r2 =>
        let r3 := r2.dropWhile isSpaceChar
        if r3.head? = some '=' then
          let r4 := r3.tail.dropWhile isSpaceChar
          let ds := r4.takeWhile Char.isDigit
          let r5 := r4.dropWhile Char.isDigit
          if ds = [] then none
          else if r5.head? = some ',' then
            match dropPrefixOpt nameKey (r5.tail.dropWhile isSpaceChar) with
            | none => none
            | some r6 =>
              let r7 := r6.dropWhile isSpaceChar
              if r7.head? = some '=' then
                let r8 := r7.tail.dropWhile isSpaceChar
                if r8.head? = some '"' then
                  let cap := r8.tail.takeWhile notQuote
                  let r9 := r8.tail.dropWhile notQuote
                  if cap = [] then none
                  else if r9.head? = some '"' then
                    if r9.tail.head? = some '\x7d' then some (ds, cap, r9.tail.tail)
                    else none
                  else none
                else none
              else none
          else none
        else none
    else none

/-- The `re.findall` scan for the inventory pattern: try the match at each
position, resuming after each non-overlapping match. Fuelled by the input
length; each step consumes at least one character, so the fuel of
`invScan` below never runs out early. -/
def invScanFuel : Nat → List Char → List (List Char × List Char)
  | 0, _ => []
  | _, [] => []
  | fuel + 1, c :: cs =>
    match matchInvAt (c :: cs) with
    | some (ds, cap, rest) => (ds, cap) :: invScanFuel fuel rest
    | none => invScanFuel fuel cs

def invScan (l : List Char) : List (List Char × List Char) := invScanFuel l.length l

/-- An inventory entry as decoded by `_parse_inventory`. -/
structure InventoryItem where
  name : String
  count : Nat
deriving DecidableEq, Repr

/-- Embedding of `FactorioTools._parse_inventory`: scan for the fixed
count-then-name pattern and build the items (`int(...)` of the digit
capture). -/
def parseInventory (s : String) : List InventoryItem :=
  (invScan s.data).map (fun p => ⟨String.mk p.2, natOfDigits p.1⟩)

/-- Canonical serpent.line rendering of an inventory record with the count
field first. -/
def renderInvCountFirst (C N : List Char) : List Char :=
  '\x7b' :: (countKey ++ (' ' :: '=' :: ' ' ::
    (C ++ ',' :: ' ' :: (nameKey ++ (' ' :: '=' :: ' ' :: '"' ::
      (N ++ '"' :: '\x7d' :: []))))))

/-- The same record with the name field first. -/
def renderInvNameFirst (C N : List Char) : List Char :=
  '\x7b' :: (nameKey ++ (' ' :: '=' :: ' ' :: '"' ::
    (N ++ '"' :: ',' :: ' ' :: (countKey ++ (' ' :: '=' :: ' ' ::
      (C ++ '\x7d' :: []))))))

theorem digit_not_space (c : Char) (h : c.isDigit = true) : isSpaceChar c = false := by
  cases hsp : isSpaceChar c with
  | false => rfl
  | true =>
    rcases spaceChar_cases c hsp with rfl | rfl | rfl | rfl | rfl | rfl <;>
      exact absurd h (by decide)

theorem invScanFuel_nil : ∀ f, invScanFuel f [] = [] := by
  intro f
  cases f with
  | zero => rfl
  | succ n => rfl

theorem matchInvAt_cons_ne (c : Char) (cs : List Char) (h : c ≠ '\x7b') :
    matchInvAt (c :: cs) = none := by
  simp only [matchInvAt, if_neg h]

theorem invScanFuel_no_lbrace : ∀ (f : Nat) (l : List Char),
    (∀ c ∈ l, c ≠ '\x7b') → invScanFuel f l = [] := by
  intro f
  induction f with
  | zero => intro l _; cases l <;> rfl
  | succ n ih =>
    intro l h
    cases l with
    | nil => rfl
    | cons c cs =>
      simp only [invScanFuel, matchInvAt_cons_ne c cs (h c (List.mem_cons_self _ _))]
      exact ih cs (fun d hd => h d (List.mem_cons_of_mem _ hd))

theorem dropWhile_cons_of_pos {p : Char → Bool} (c : Char) (l : List Char)
    (h : p c = true) : (c :: l).dropWhile p = l.dropWhile p := by
  simp [List.dropWhile_cons, h]

theorem matchInvAt_countFirst (C N : List Char) (hC : C ≠ [])
    (hCd : ∀ c ∈ C, c.isDigit = true) (hN : N ≠ []) (hNq : ∀ c ∈ N, notQuote c = true) :
    matchInvAt (renderInvCountFirst C N) = some (C, N, []) := by
  have hCns : ∀ c ∈ C, isSpaceChar c = false := fun c hc => digit_not_space c (hCd c hc)
  unfold matchInvAt renderInvCountFirst
  simp only [eq_self_iff_true, if_true, dropPrefixOpt_self_append]
  rw [dropWhile_cons_of_pos _ _ (by decide), dropWhile_cons_of_neg _ _ (by decide)]
  simp only [List.head?_cons, Option.some.injEq, eq_self_iff_true, if_true, List.tail_cons]
  rw [dropWhile_cons_of_pos _ _ (by decide)]
  cases C with
  | nil => exact absurd rfl hC
  | cons c0 C2 =>
    have hc0d : c0.isDigit = true := hCd c0 (List.mem_cons_self _ _)
    have hC2d : ∀ c ∈ C2, c.isDigit = true :=
      fun c hc => hCd c (List.mem_cons_of_mem _ hc)
    rw [List.cons_append,
        dropWhile_cons_of_neg _ _ (hCns c0 (List.mem_cons_self _ _))]
    rw [show c0 :: (C2 ++ ',' :: ' ' :: (nameKey ++ (' ' :: '=' :: ' ' :: '"' ::
          (N ++ '"' :: '\x7d' :: []))))
        = (c0 :: C2) ++ ',' :: ' ' :: (nameKey ++ (' ' :: '=' :: ' ' :: '"' ::
          (N ++ '"' :: '\x7d' :: []))) from rfl]
    rw [takeWhile_append_of_all (c0 :: C2) _
          (fun c hc => by
            rcases List.mem_cons.mp hc with rfl | hc
            · exact hc0d
            · exact hC2d c hc),
        takeWhile_cons_of_neg _ _ (by decide)]
    rw [dropWhile_append_of_all (c0 :: C2) _
          (fun c hc => by
            rcases List.mem_cons.mp hc with rfl | hc
            · exact hc0d
            · exact hC2d c hc),
        dropWhile_cons_of_neg _ _ (by decide)]
    rw [if_neg (by simp)]
    simp only [List.head?_cons, Option.some.injEq, eq_self_iff_true, if_true,
      List.tail_cons]
    rw [dropWhile_cons_of_pos _ _ (by decide)]
    rw [show List.dropWhile isSpaceChar
          (nameKey ++ (' ' :: '=' :: ' ' :: '"' :: (N ++ '"' :: '\x7d' :: [])))
        = nameKey ++ (' ' :: '=' :: ' ' :: '"' :: (N ++ '"' :: '\x7d' :: [])) from by
      simp +decide [nameKey, List.dropWhile_cons]]
    simp only [dropPrefixOpt_self_append]
    rw [dropWhile_cons_of_pos _ _ (by decide), dropWhile_cons_of_neg _ _ (by decide)]
    simp only [List.head?_cons, Option.some.injEq, eq_self_iff_true, if_true,
      List.tail_cons]
    rw [dropWhile_cons_of_pos _ _ (by decide), dropWhile_cons_of_neg _ _ (by decide)]
    simp only [List.head?_cons, Option.some.injEq, eq_self_iff_true, if_true,
      List.tail_cons]
    rw [takeWhile_append_of_all N _ hNq, takeWhile_cons_of_neg _ _ (by decide)]
    rw [dropWhile_append_of_all N _ hNq, dropWhile_cons_of_neg _ _ (by decide)]
    rw [if_neg (by simp [hN])]
    simp

/-- The inventory pattern refuses a record whose name field precedes its
count field: right after the opening brace it demands the literal `count`,
and the name-first rendering offers `name` there. -/
theorem matchInvAt_nameFirst (C N : List Char) :
    matchInvAt (renderInvNameFirst C N) = none := by
  unfold renderInvNameFirst matchInvAt
  simp +decide [dropPrefixOpt, nameKey, countKey]

theorem invScanFuel_succ (f : Nat) (c : Char) (cs : List Char) :
    invScanFuel (f + 1) (c :: cs)
      = match matchInvAt (c :: cs) with
        | some (ds, cap, rest) => (ds, cap) :: invScanFuel f rest
        | none => invScanFuel f cs := rfl

/-- A count-first inventory record is decoded to exactly its item. -/
theorem parseInventory_countFirst (C N : List Char) (hC : C ≠ [])
    (hCd : ∀ c ∈ C, c.isDigit = true) (hN : N ≠ []) (hNq : ∀ c ∈ N, notQuote c = true) :
    parseInventory (String.mk (renderInvCountFirst C N))
      = [⟨String.mk N, natOfDigits C⟩] := by
  unfold parseInventory invScan
  rw [show (String.mk (renderInvCountFirst C N)).data
        = '\x7b' :: (countKey ++ (' ' :: '=' :: ' ' ::
          (C ++ ',' :: ' ' :: (nameKey ++ (' ' :: '=' :: ' ' :: '"' ::
            (N ++ '"' :: '\x7d' :: [])))))) from rfl]
  rw [List.length_cons]
  rw [invScanFuel_succ]
  rw [show matchInvAt ('\x7b' :: (countKey ++ (' ' :: '=' :: ' ' ::
        (C ++ ',' :: ' ' :: (nameKey ++ (' ' :: '=' :: ' ' :: '"' ::
          (N ++ '"' :: '\x7d' :: []))))))) = some (C, N, []) from
      matchInvAt_countFirst C N hC hCd hN hNq]
  simp only [invScanFuel_nil, List.map_cons, List.map_nil]

/-- A name-first inventory record decodes to nothing: the position-0 match
fails on the `count` literal, and the rest of the rendering contains no
further left brace for the scan to restart from. -/
theorem parseInventory_nameFirst (C N : List Char)
    (hCb : ∀ c ∈ C, c ≠ '\x7b') (hNb : ∀ c ∈ N, c ≠ '\x7b') :
    parseInventory (String.mk (renderInvNameFirst C N)) = [] := by
  have hrest : ∀ c ∈ (nameKey ++ (' ' :: '=' :: ' ' :: '"' ::
      (N ++ '"' :: ',' :: ' ' :: (countKey ++ (' ' :: '=' :: ' ' ::
        (C ++ '\x7d' :: [])))))), c ≠ '\x7b' := by
    refine forall_ne_append _ _ _ (by decide) ?_
    refine forall_ne_cons _ _ _ (by decide) ?_
    refine forall_ne_cons _ _ _ (by decide) ?_
    refine forall_ne_cons _ _ _ (by decide) ?_
    refine forall_ne_cons _ _ _ (by decide) ?_
    refine forall_ne_append _ _ _ hNb ?_
    refine forall_ne_cons _ _ _ (by decide) ?_
    refine forall_ne_cons _ _ _ (by decide) ?_
    refine forall_ne_cons _ _ _ (by decide) ?_
    refine forall_ne_append _ _ _ (by decide) ?_
    refine forall_ne_cons _ _ _ (by decide) ?_
    refine forall_ne_cons _ _ _ (by decide) ?_
    refine forall_ne_cons _ _ _ (by decide) ?_
    refine forall_ne_append _ _ _ hCb ?_
    exact forall_ne_cons _ _ _ (by decide) (forall_ne_nil _)
  unfold parseInventory invScan
  rw [show (String.mk (renderInvNameFirst C N)).data
        = '\x7b' :: (nameKey ++ (' ' :: '=' :: ' ' :: '"' ::
          (N ++ '"' :: ',' :: ' ' :: (countKey ++ (' ' :: '=' :: ' ' ::
            (C ++ '\x7d' :: [])))))) from rfl]
  rw [List.length_cons]
  rw [invScanFuel_succ]
  rw [show matchInvAt ('\x7b' :: (nameKey ++ (' ' :: '=' :: ' ' :: '"' ::
        (N ++ '"' :: ',' :: ' ' :: (countKey ++ (' ' :: '=' :: ' ' ::
          (C ++ '\x7d' :: []))))))) = none from matchInvAt_nameFirst C N]
  rw [invScanFuel_no_lbrace _ _ hrest]
  rfl

/-- C3 counterexample: the same inventory record decodes differently when
its two fields are reordered - count-first yields the item, name-first
yields nothing at all. -/
theorem inventory_order_counterexample :
    parseInventory "\x7bcount = 2, name = \"wood\"\x7d" = [⟨"wood", 2⟩] ∧
      parseInventory "\x7bname = \"wood\", count = 2\x7d" = [] :=
  ⟨rfl, rfl⟩

/-- C3 (amended): field-order independence holds for the entity-list
decoder - `extractEntity` recovers a clean record from its block in any of
the six field orders, with arbitrary whitespace around `=` - but not for
the inventory decoder, whose single regex fixes the order count-then-name:
a count-first inventory record decodes to its item while the same record
rendered name-first decodes to the empty list. -/
theorem record_decode_field_order (r : EntRec) (wa wb : List Char)
    (perm : List EField)
    (hwa : ∀ c ∈ wa, isSpaceChar c = true) (hwb : ∀ c ∈ wb, isSpaceChar c = true)
    (hperm : perm ∈ allFieldOrders) (hr : CleanRec r)
    (C N : List Char) (hC : C ≠ []) (hCd : ∀ c ∈ C, c.isDigit = true)
    (hN : N ≠ []) (hNq : ∀ c ∈ N, notQuote c = true)
    (hCb : ∀ c ∈ C, c ≠ '\x7b') (hNb : ∀ c ∈ N, c ≠ '\x7b') :
    extractEntity (renderBlockW r wa wb perm) = some (entityOf r) ∧
      parseInventory (String.mk (renderInvCountFirst C N))
        = [⟨String.mk N, natOfDigits C⟩] ∧
      parseInventory (String.mk (renderInvNameFirst C N)) = [] := by
  refine ⟨?_, parseInventory_countFirst C N hC hCd hN hNq,
    parseInventory_nameFirst C N hCb hNb⟩
  have h := extractEntity_renderBlockW [] wa wb perm r
    (fun c hc => absurd hc (List.not_mem_nil c)) hwa hwb hperm hr
  simpa using h

theorem record_decode_field_order_witness :
    ((∀ c ∈ ([' '] : List Char), isSpaceChar c = true) ∧
      [EField.fy, EField.fname, EField.fx] ∈ allFieldOrders ∧
      CleanRec ⟨['d', 'r', 'i', 'l', 'l'], ['1', '.', '5'], ['-', '2']⟩ ∧
      (['2'] : List Char) ≠ [] ∧ (∀ c ∈ (['2'] : List Char), c.isDigit = true) ∧
      (['w', 'o', 'o', 'd'] : List Char) ≠ [] ∧
      (∀ c ∈ (['w', 'o', 'o', 'd'] : List Char), notQuote c = true) ∧
      (∀ c ∈ (['2'] : List Char), c ≠ '\x7b') ∧
      (∀ c ∈ (['w', 'o', 'o', 'd'] : List Char), c ≠ '\x7b')) ∧
    (extractEntity (renderBlockW ⟨['d', 'r', 'i', 'l', 'l'], ['1', '.', '5'], ['-', '2']⟩
        [' '] [' '] [EField.fy, EField.fname, EField.fx])
      = some (entityOf ⟨['d', 'r', 'i', 'l', 'l'], ['1', '.', '5'], ['-', '2']⟩) ∧
      parseInventory (String.mk (renderInvCountFirst ['2'] ['w', 'o', 'o', 'd']))
        = [⟨String.mk ['w', 'o', 'o', 'd'], natOfDigits ['2']⟩] ∧
      parseInventory (String.mk (renderInvNameFirst ['2'] ['w', 'o', 'o', 'd'])) = []) :=
  ⟨⟨by decide, by decide, by decide, by decide, by decide, by decide, by decide,
      by decide, by decide⟩,
    record_decode_field_order ⟨['d', 'r', 'i', 'l', 'l'], ['1', '.', '5'], ['-', '2']⟩
      [' '] [' '] [EField.fy, EField.fname, EField.fx]
      (by decide) (by decide) (by decide) (by decide)
      ['2'] ['w', 'o', 'o', 'd']
      (by decide) (by decide) (by decide) (by decide) (by decide) (by decide)⟩

/-- A concrete reply with a tainted sibling: the first record's name
contains a right brace, the second record is clean. -/
def sibRecs : List EntRec :=
  [⟨['a', '\x7d', 'b'], ['3'], ['4']⟩, ⟨['d', 'r', 'i', 'l', 'l'], ['1'], ['2']⟩]

/-- The clean sibling of `sibRecs`. -/
def sibTarget : EntRec := ⟨['d', 'r', 'i', 'l', 'l'], ['1'], ['2']⟩

theorem entity_sibling_brace_safety_witness :
    (sibTarget ∈ sibRecs ∧ CleanRec sibTarget) ∧
      entityOf sibTarget ∈ parseEntityList (String.mk (renderReply sibRecs)) :=
  ⟨⟨List.mem_cons_of_mem _ (List.mem_cons_self _ _), by decide⟩,
    entity_sibling_brace_safety sibRecs sibTarget
      (List.mem_cons_of_mem _ (List.mem_cons_self _ _)) (by decide)⟩
